import Mathlib

/-!
# Verification of the jetstream streaming codec core

A shallow embedding, in Lean 4, of the jetstream codec (encoder, decoder,
varint, Simple-8b packing, quality RLE), translated from the Rust sources
`src/encoder.rs`, `src/decoder.rs`, `src/jetstream.rs`,
`src/encoding/bitops.rs` and `src/encoding/simple8b.rs`.

Machine integers are represented by their bit patterns as `Nat`:
a `u32` / `i32` value is a `Nat` below `2^32`, a `u64` / `i64` value a `Nat`
below `2^64`.  Wrapping arithmetic is written with explicit `% 2^32` /
`% 2^64`; bitwise operators are `Nat.land`, `Nat.lor`, `Nat.xor` and shifts.
Signed comparison against zero is a comparison of the pattern with `2^31`
(resp. `2^63`).  Rust `Vec`s that are indexed and mutated in place are
represented as total functions `Nat → _` together with the length
information the surrounding code carries; in-place stores become function
overrides.  Rust panics (assertion failures, out-of-range indexing,
remainder by zero, the explicit `panic!` in `uvarint32`) are modelled as a
separate outcome, distinct from a `Result::Err` returned to the caller.
The DEFLATE compressor of the `flate2` crate is not part of the repository;
both the encoder's compression and the decoder's decompression are taken
as an abstract deterministic function parameter (`GzFn`), which is only
exercised when more than 4096 samples are in one message.
-/

set_option maxRecDepth 100000

namespace Jetstream

/-- `2^32`, the modulus of `u32` / `i32` bit patterns. -/
def w32 : Nat := 4294967296

/-- `2^31`, the sign bit of an `i32` pattern. -/
def sign32 : Nat := 2147483648

/-- `2^64`, the modulus of `u64` / `i64` bit patterns. -/
def w64 : Nat := 18446744073709551616

/-- `2^63`, the sign bit of an `i64` pattern. -/
def sign63 : Nat := 9223372036854775808

/-! ## Constants from `jetstream.rs` -/

/-- `SIMPLE8B_THRESHOLD_SAMPLES` in `jetstream.rs`. -/
def SIMPLE8B_THRESHOLD_SAMPLES : Nat := 16

/-- `DEFAULT_DELTA_ENCODING_LAYERS` in `jetstream.rs`. -/
def DEFAULT_DELTA_ENCODING_LAYERS : Nat := 3

/-- `HIGH_DELTA_ENCODING_LAYERS` in `jetstream.rs`. -/
def HIGH_DELTA_ENCODING_LAYERS : Nat := 3

/-- `MAX_HEADER_SIZE` in `jetstream.rs`. -/
def MAX_HEADER_SIZE : Nat := 36

/-- `USE_GZIP_THRESHOLD_SAMPLES` in `jetstream.rs`. -/
def USE_GZIP_THRESHOLD_SAMPLES : Nat := 4096

/-- `get_delta_encoding` in `jetstream.rs`. -/
def get_delta_encoding (sampling_rate : Nat) : Nat :=
  if sampling_rate > 100000 then HIGH_DELTA_ENCODING_LAYERS
  else DEFAULT_DELTA_ENCODING_LAYERS

/-! ## Bit utilities (`encoding/bitops.rs`)

`zig_zag_encode64` is `((x << 1) as u64) ^ ((x >> 63) as u64)` on an `i64`:
the left shift wraps modulo `2^64` and the arithmetic right shift by 63
yields all zeros for a non-negative pattern and all ones for a negative
one.  `zig_zag_decode64` is `(v >> 1) ^ -(v & 1)` likewise. -/

/-- `zig_zag_encode64` from `bitops.rs`, on `i64` bit patterns. -/
def zig_zag_encode64 (x : Nat) : Nat :=
  ((x * 2) % w64) ^^^ (if x < sign63 then 0 else w64 - 1)

/-- `zig_zag_decode64` from `bitops.rs`, on `i64` bit patterns. -/
def zig_zag_decode64 (v : Nat) : Nat :=
  (v >>> 1) ^^^ (if v % 2 = 1 then w64 - 1 else 0)

/-- Sign extension of an `i32` bit pattern to an `i64` bit pattern
(the Rust cast `value as i64` on an `i32`). -/
def sext32to64 (a : Nat) : Nat :=
  if a < sign32 then a else a + (w64 - w32)

/-- Wrapping `i32` addition on bit patterns. -/
def addI32 (a b : Nat) : Nat := (a + b) % w32

/-- Wrapping `i32` subtraction on bit patterns (operands below `2^32`). -/
def subI32 (a b : Nat) : Nat := (a + w32 - b % w32) % w32

/-- The Rust cast `x as usize` of an `i32` (sign extension to 64 bits,
reinterpreted as an unsigned machine word). -/
def usizeOfI32 (a : Nat) : Nat :=
  if a < sign32 then a else w64 - (w32 - a)

/-! ## Varint codec (`jetstream.rs`)

`uvarint32` walks the buffer accumulating 7-bit groups.  The overflow guard
`i > 9 || i == 9 && b > 1` is only reached at the tenth byte (this bound
was copied from Go's 64-bit varint); when it fires the Rust code executes
`panic!("uvarint32: overflow")`, which we model as an `.error`.  Shift
amounts of 32 or more (reached from the fifth continuation byte on) are
masked to the word size, which is the release-profile behaviour of Rust's
`<<` on `u32` (a debug build would abort at the same spot instead). -/

/-- Loop body of `uvarint32` from `jetstream.rs`: remaining bytes, byte
index `i`, shift `s`, accumulator `x`.  Returns the `(value, length)` pair
or the overflow panic. -/
def uvarint32Go : List Nat → Nat → Nat → Nat → Except String (Nat × Nat)
  | [], _, _, _ => .ok (0, 0)
  | b :: rest, i, s, x =>
    if b < 128 then
      if i > 9 ∨ (i = 9 ∧ b > 1) then .error "uvarint32: overflow"
      else .ok (x ||| ((b <<< (s % 32)) % w32), i + 1)
    else uvarint32Go rest (i + 1) (s + 7) (x ||| (((b &&& 127) <<< (s % 32)) % w32))

/-- `uvarint32` from `jetstream.rs`: returns `(value, bytes consumed)`;
`(0, 0)` when the buffer ends inside a continuation chain. -/
def uvarint32 (buf : List Nat) : Except String (Nat × Nat) :=
  uvarint32Go buf 0 0 0

/-- `varint32` from `jetstream.rs`: unsigned decode then inverse zig-zag on
the `u32` pattern. -/
def varint32 (buf : List Nat) : Except String (Nat × Nat) :=
  match uvarint32 buf with
  | .error e => .error e
  | .ok (ux, n) =>
    let x := ux >>> 1
    .ok ((if ux % 2 ≠ 0 then (w32 - 1) ^^^ x else x), n)

/-- Loop of `put_uvarint32` with explicit fuel: a `u32` needs at most four
continuation bytes before the terminal one, so fuel 5 never runs out for
arguments below `2^32` (the zero-fuel byte is unreachable there). -/
def putUvarint32Go : Nat → Nat → List Nat
  | 0, x => [x % 256]
  | fuel + 1, x =>
    if x ≥ 128 then ((x % 256) ||| 128) :: putUvarint32Go fuel (x >>> 7)
    else [x % 256]

/-- `put_uvarint32` from `jetstream.rs`, returning the bytes written
(`buf[i] = (x as u8) | 0x80` per continuation byte, then the terminal
byte). -/
def put_uvarint32 (x : Nat) : List Nat :=
  putUvarint32Go 5 x

/-- `put_varint32` from `jetstream.rs`: zig-zag to `u32` then unsigned
form.  `x` is an `i32` bit pattern. -/
def put_varint32 (x : Nat) : List Nat :=
  let ux := (x * 2) % w32
  put_uvarint32 (if x ≥ sign32 then (w32 - 1) ^^^ ux else ux)

/-! ## Simple-8b (`encoding/simple8b.rs`) -/

/-- The `(N, bits)` columns of the `SELECTOR` table in `simple8b.rs`. -/
def SELECTOR : List (Nat × Nat) :=
  [(240, 0), (120, 0), (60, 1), (30, 2), (20, 3), (15, 4), (12, 5), (10, 6),
   (8, 7), (7, 8), (6, 10), (5, 12), (4, 15), (3, 20), (2, 30), (1, 60)]

/-- `SELECTOR[sel].n`. -/
def selN (sel : Nat) : Nat := (SELECTOR.getD sel (0, 0)).1

/-- `SELECTOR[sel].bit`. -/
def selBit (sel : Nat) : Nat := (SELECTOR.getD sel (0, 0)).2

/-- `can_pack` from `simple8b.rs`.  For `bits == 0` (selectors 0 and 1) the
source scans `0..src.len()`, i.e. every remaining element, requiring each
to equal 1; otherwise it scans the first `min(n, src.len()) = n` elements
against `(1 << bits) - 1`. -/
def can_pack (src : List Nat) (n bits : Nat) : Bool :=
  if src.length < n then false
  else if bits = 0 then src.all (· == 1)
  else (src.take n).all (· ≤ (1 <<< bits) - 1)

/-- The OR-of-shifted-values body shared by `pack60` … `pack1` in
`simple8b.rs`: value `k` lands in bits `k*bits ..`, each shifted term
wrapping modulo `2^64` as the `u64` shifts do. -/
def packBody (bits n : Nat) (src : List Nat) : Nat :=
  (List.range n).foldl (fun acc k => acc ||| ((src.getD k 0 <<< (k * bits)) % w64)) 0

/-- One packed word for selectors 2..15: the selector in bits 60..63 ORed
with the packed values (`pack60` … `pack1`).  Selectors 0 and 1 are not
formed this way: `encode_all` writes the constants `0` and `1 << 60`. -/
def packWord (sel : Nat) (src : List Nat) : Nat :=
  (sel <<< 60) ||| packBody (selBit sel) (selN sel) src

/-- The selector-choice chain shared by `encode_all` and `encode_all_ref`
(`simple8b.rs` lines 451–586): try `can_pack` for selectors 0..15 in order;
on success emit the word and drop the consumed elements; when nothing fits
return the "value out of bounds" error.  One step of the loop. -/
def encodeStep (src : List Nat) : Except String (Nat × Nat) :=
  if can_pack src 240 0 then .ok (0, 240)
  else if can_pack src 120 0 then .ok (1 <<< 60, 120)
  else if can_pack src 60 1 then .ok (packWord 2 (src.take 60), 60)
  else if can_pack src 30 2 then .ok (packWord 3 (src.take 30), 30)
  else if can_pack src 20 3 then .ok (packWord 4 (src.take 20), 20)
  else if can_pack src 15 4 then .ok (packWord 5 (src.take 15), 15)
  else if can_pack src 12 5 then .ok (packWord 6 (src.take 12), 12)
  else if can_pack src 10 6 then .ok (packWord 7 (src.take 10), 10)
  else if can_pack src 8 7 then .ok (packWord 8 (src.take 8), 8)
  else if can_pack src 7 8 then .ok (packWord 9 (src.take 7), 7)
  else if can_pack src 6 10 then .ok (packWord 10 (src.take 6), 6)
  else if can_pack src 5 12 then .ok (packWord 11 (src.take 5), 5)
  else if can_pack src 4 15 then .ok (packWord 12 (src.take 4), 4)
  else if can_pack src 3 20 then .ok (packWord 13 (src.take 3), 3)
  else if can_pack src 2 30 then .ok (packWord 14 (src.take 2), 2)
  else if can_pack src 1 60 then .ok (packWord 15 (src.take 1), 1)
  else .error "value out of bounds"

/-- The `encode_all` / `encode_all_ref` loop with explicit fuel.  Every
successful step consumes at least one element, so fuel `src.length + 1`
always reaches the empty list before the (unreachable) zero-fuel case. -/
def encodeAllGo : Nat → List Nat → Except String (List Nat)
  | _, [] => .ok []
  | 0, _ => .ok []
  | fuel + 1, src =>
    match encodeStep src with
    | .error e => .error e
    | .ok (word, used) =>
      match encodeAllGo fuel (src.drop used) with
      | .error e => .error e
      | .ok rest => .ok (word :: rest)

/-- `encode_all` from `simple8b.rs`: the list of packed 64-bit words, or
the "value out of bounds" error. -/
def encode_all (src : List Nat) : Except String (List Nat) :=
  encodeAllGo (src.length + 1) src

/-- Big-endian value of a byte list (`u64::from_be_bytes` on 8 bytes). -/
def beU64 (l : List Nat) : Nat :=
  l.foldl (fun a b => a * 256 + b) 0

/-- Big-endian bytes of `x`, `w` bytes wide (`to_be_bytes`). -/
def beBytes : Nat → Nat → List Nat
  | 0, _ => []
  | w + 1, x => ((x >>> (8 * w)) % 256) :: beBytes w x

/-- The per-word value loop of `for_each` (`simple8b.rs` lines 353–359):
`n` values are extracted as `v & mask`, shifting `v` right by `bits` each
time; the callback threads a state and may stop the iteration (`false`) or
abort with a panic (`.error`). -/
def forEachWordLoop (bits mask : Nat) (f : σ → Nat → Except String (σ × Bool)) :
    Nat → Nat → σ → Except String (σ × Bool)
  | 0, _, s => .ok (s, true)
  | n + 1, v, s =>
    match f s (v &&& mask) with
    | .error e => .error e
    | .ok (s, false) => .ok (s, false)
    | .ok (s, true) => forEachWordLoop bits mask f n (v >>> bits) s

/-- `for_each` from `simple8b.rs`.  Words are the successive 8-byte
big-endian groups; fewer than 8 trailing bytes end the loop.  `count` is
incremented per word before its values are visited, and an early stop
returns `Ok(count)` with the current word included.  The mask is computed
exactly as in the source, `!((!0i64) << bits) as u64` — which is `0` when
`bits = 0`.  The inner `Except String Nat` is the function's own
`Result`; the outer one propagates a callback panic. -/
def forEachGo (f : σ → Nat → Except String (σ × Bool)) :
    List Nat → σ → Nat → Except String (σ × Except String Nat)
  | b0 :: b1 :: b2 :: b3 :: b4 :: b5 :: b6 :: b7 :: rest, s, count =>
    let v := beU64 [b0, b1, b2, b3, b4, b5, b6, b7]
    let sel := v >>> 60
    if sel ≥ 16 then .ok (s, .error "invalid selector value")
    else
      let n := selN sel
      let bits := selBit sel
      let mask := (w64 - 1) ^^^ (((w64 - 1) <<< bits) % w64)
      match forEachWordLoop bits mask f n v s with
      | .error e => .error e
      | .ok (s, false) => .ok (s, .ok (count + 1))
      | .ok (s, true) => forEachGo f rest s (count + 1)
  | _, s, count => .ok (s, .ok count)

/-- `for_each` from `simple8b.rs`, threading the callback's captured state
explicitly (the Rust callback is an `FnMut` closure). -/
def for_each (b : List Nat) (s : σ) (f : σ → Nat → Except String (σ × Bool)) :
    Except String (σ × Except String Nat) :=
  forEachGo f b s 0

/-- `count_bytes` from `simple8b.rs`: sums `SELECTOR[sel].n` over the
8-byte words and rejects a trailing group of 1–7 bytes. -/
def count_bytes : List Nat → Nat → Except String Nat
  | b0 :: b1 :: b2 :: b3 :: b4 :: b5 :: b6 :: b7 :: rest, count =>
    let v := beU64 [b0, b1, b2, b3, b4, b5, b6, b7]
    let sel := v >>> 60
    if sel ≥ 16 then .error "invalid selector value"
    else count_bytes rest (count + selN sel)
  | [], count => .ok count
  | b, _ => .error ("invalid slice len remaining: " ++ toString b.length)

/-! ## Data model (`jetstream.rs`) -/

/-- `DatasetWithQuality` from `jetstream.rs`: one timestamped sample-set.
`i32s` entries are `i32` bit patterns, `q` entries `u32` patterns. -/
structure DatasetWithQuality where
  t : Nat
  i32s : List Nat
  q : List Nat
deriving Repr, DecidableEq

/-- `create_spatial_refs` from `jetstream.rs`, as the index function of the
produced vector.  The source walks `i` in `0..count`, and for `i ≥ inc`
sets `refs[i] = Some(i - inc)` when `i < count_v * inc`, or else when
`(count_v + 1) * inc ≤ i < (count_v + count_i) * inc`. -/
def create_spatial_refs (count count_v count_i : Nat) (include_neutral : Bool) :
    Nat → Option Nat :=
  let inc := if include_neutral then 4 else 3
  fun i =>
    if i < count ∧ inc ≤ i ∧
        (i < count_v * inc ∨ ((count_v + 1) * inc ≤ i ∧ i < (count_v + count_i) * inc)) then
      some (i - inc)
    else none

/-- Store the byte list `bs` at positions `pos, pos+1, …` of a byte
buffer. -/
def writeBytes (buf : Nat → Nat) (pos : Nat) : List Nat → (Nat → Nat)
  | [] => buf
  | b :: rest => writeBytes (fun p => if p = pos then b else buf p) (pos + 1) rest

/-- The abstract DEFLATE round (the `flate2` crate is outside this
repository): a deterministic compressor / decompressor returning `none` on
a write or read failure. -/
def GzFn := List Nat → Option (List Nat)

/-- Arithmetic-or-XOR combination used by the delta chain of
`Encoder::encode` (`-` or `^` on `i32` patterns). -/
def combineI32 (use_xor : Bool) (a b : Nat) : Nat :=
  if use_xor then a ^^^ b else subI32 a b

/-! ## Encoder (`encoder.rs`)

The `Encoder` struct, with `Vec`s as index functions.  Two scratch fields
of the source are not carried in the state because every one of their
cells is written before it is read within a single call, so they never
transport information between calls: `delta_n` (rebuilt per variable per
sample, represented by the recurrence `Encoder.delta_n`) and
`simple8b_values` (filled by `encode_all_ref` and immediately copied into
the output buffer inside `_end_encode`; represented by using the packed
word list directly). -/

structure Encoder where
  id : List Nat
  sampling_rate : Nat
  samples_per_message : Nat
  i32_count : Nat
  buf_a : Nat → Nat
  buf_b : Nat → Nat
  use_buf_a : Bool
  len : Nat
  encoded_samples : Nat
  using_simple8b : Bool
  delta_encoding_layers : Nat
  prev_data : Nat → Nat → Nat
  quality_history : Nat → List (Nat × Nat)
  diffs : Nat → Nat → Nat
  values : Nat → Nat → Nat
  use_xor : Bool
  spatial_ref : Nat → Option Nat

namespace Encoder

/-- `Encoder::new`: all buffers zeroed, ping-pong flag on `buf_a`, one
`(0, 0)` quality pair per variable, no spatial references, arithmetic
deltas. -/
def new (id : List Nat) (i32_count sampling_rate samples_per_message : Nat) : Encoder where
  id := id
  sampling_rate := sampling_rate
  samples_per_message := samples_per_message
  i32_count := i32_count
  buf_a := fun _ => 0
  buf_b := fun _ => 0
  use_buf_a := true
  len := 0
  encoded_samples := 0
  using_simple8b := samples_per_message > SIMPLE8B_THRESHOLD_SAMPLES
  delta_encoding_layers := get_delta_encoding sampling_rate
  prev_data := fun _ _ => 0
  quality_history := fun _ => [(0, 0)]
  diffs := fun _ _ => 0
  values := fun _ _ => 0
  use_xor := false
  spatial_ref := fun _ => none

/-- The active ping-pong buffer (`Encoder::buf`). -/
def buf (s : Encoder) : Nat → Nat :=
  if s.use_buf_a then s.buf_a else s.buf_b

/-- Replace the active ping-pong buffer (`Encoder::buf_mut`). -/
def setBuf (s : Encoder) (b : Nat → Nat) : Encoder :=
  if s.use_buf_a then { s with buf_a := b } else { s with buf_b := b }

/-- `Encoder::set_xor`. -/
def set_xor (s : Encoder) (xor : Bool) : Encoder := { s with use_xor := xor }

/-- `Encoder::set_spatial_refs`. -/
def set_spatial_refs (s : Encoder) (count count_v count_i : Nat)
    (include_neutral : Bool) : Encoder :=
  { s with spatial_ref := create_spatial_refs count count_v count_i include_neutral }

/-- Append `bs` at the current write position `s.len` of the active
buffer, advancing `len`; every payload store in the source has this
shape. -/
def pushBytes (s : Encoder) (bs : List Nat) : Encoder :=
  let s2 := setBuf s (writeBytes (buf s) s.len bs)
  { s2 with len := s2.len + bs.length }

/-- The first `len` bytes of the active buffer: what `_end_encode`
returns when no compression runs. -/
def bufList (s : Encoder) : List Nat :=
  (List.range s.len).map (buf s)

/-- The three staging stores the variable loop of `Encoder::encode`
mutates: `prev_data`, `diffs` and `values`. -/
structure Staging where
  prev : Nat → Nat → Nat
  diffs : Nat → Nat → Nat
  values : Nat → Nat → Nat

/-- The `delta_n` cascade computed by `Encoder::encode` for one variable:
`delta_n[0] = combine(val, prev_data[0][i])` and
`delta_n[k] = combine(delta_n[k-1], prev_data[k][i])`.  Every cell
`delta_n[k]` with `k < min(j, L)` is written from exactly these equations
before any read of it, so the scratch vector is this recurrence. -/
def delta_n (cmb : Nat → Nat → Nat) (prev : Nat → Nat → Nat) (i val : Nat) : Nat → Nat
  | 0 => cmb val (prev 0 i)
  | k + 1 => cmb (delta_n cmb prev i val k) (prev (k + 1) i)

/-- The spatially-adjusted value of variable `i` in `Encoder::encode`:
the raw sample, minus the referenced variable's raw sample when a spatial
reference is set. -/
def encVal (sref : Nat → Option Nat) (data : DatasetWithQuality) (i : Nat) : Nat :=
  match sref i with
  | some r => subI32 (data.i32s.getD i 0) (data.i32s.getD r 0)
  | none => data.i32s.getD i 0

/-- Body of the `for i in 0..data.i32s.len()` loop of `Encoder::encode`
(`j = encoded_samples`): spatial-reference subtraction, delta cascade,
residual staging (`encode_single_sample`, into `diffs[i][j]` zig-zag
encoded in Simple-8b mode or `values[j][i]` in varint mode), and the
`prev_data` stores (`prev_data[0][i] = val`,
`prev_data[k][i] = delta_n[k-1]` for `k in 1..=min(j, L-1)`). -/
def encodeVar (useS8b useXor : Bool) (L : Nat) (sref : Nat → Option Nat)
    (data : DatasetWithQuality) (j : Nat) (st : Staging) (i : Nat) : Staging :=
  let val := encVal sref data i
  let dn := delta_n (combineI32 useXor) st.prev i val
  let residual := if j = 0 then val else dn (min (j - 1) (L - 1))
  let st :=
    if useS8b then
      { st with diffs := fun i2 j2 =>
          if i2 = i ∧ j2 = j then zig_zag_encode64 (sext32to64 residual)
          else st.diffs i2 j2 }
    else
      { st with values := fun j2 i2 =>
          if j2 = j ∧ i2 = i then residual
          else st.values j2 i2 }
  { st with prev := fun k i2 =>
      if i2 = i then
        if k = 0 then val
        else if 1 ≤ k ∧ k ≤ min j (L - 1) then dn (k - 1)
        else st.prev k i2
      else st.prev k i2 }

/-- The variable loop of `Encoder::encode`, ascending `i` with `fuel`
entries left to process. -/
def encodeVars (useS8b useXor : Bool) (L : Nat) (sref : Nat → Option Nat)
    (data : DatasetWithQuality) (j : Nat) : Nat → Nat → Staging → Staging
  | 0, _, st => st
  | fuel + 1, i, st =>
    encodeVars useS8b useXor L sref data j fuel (i + 1)
      (encodeVar useS8b useXor L sref data j st i)

/-- First-sample quality snapshot of `Encoder::encode`: for each `i`,
`quality_history[i][0] = (q[i], 1)`. -/
def qualitySnapshot (data : DatasetWithQuality) :
    Nat → Nat → (Nat → List (Nat × Nat)) → Nat → List (Nat × Nat)
  | 0, _, qh => qh
  | fuel + 1, i, qh =>
    qualitySnapshot data fuel (i + 1)
      (fun i2 => if i2 = i then (qh i).set 0 (data.q.getD i 0, 1) else qh i2)

/-- Subsequent-sample quality accumulation of `Encoder::encode`: extend
the last run or push a fresh `(q[i], 1)` pair.  The history always holds
at least one pair, so the `getLast? = none` branch is unreachable. -/
def qualityAppend (data : DatasetWithQuality) :
    Nat → Nat → (Nat → List (Nat × Nat)) → Nat → List (Nat × Nat)
  | 0, _, qh => qh
  | fuel + 1, i, qh =>
    let q := data.q.getD i 0
    let h := qh i
    let h2 := match h.getLast? with
      | some (v, n) => if v = q then h.dropLast ++ [(v, n + 1)] else h ++ [(q, 1)]
      | none => h
    qualityAppend data fuel (i + 1) (fun i2 => if i2 = i then h2 else qh i2)

/-- The Simple-8b payload of `_end_encode`: for each variable in order,
the slice `diffs[i][..actual_samples]` packed by `encode_all_ref`
(`unwrap_or(0)` turns a packing error into zero words for that variable)
and appended as big-endian 8-byte words. -/
def simple8bPayload (m actual : Nat) (diffs : Nat → Nat → Nat) : List Nat :=
  (List.range m).flatMap (fun i =>
    (match encode_all ((List.range actual).map (diffs i)) with
     | .error _ => []
     | .ok ws => ws).flatMap (beBytes 8))

/-- The varint payload of `_end_encode`: samples outer, variables inner,
each residual as a signed varint. -/
def varintPayload (cnt m : Nat) (values : Nat → Nat → Nat) : List Nat :=
  (List.range cnt).flatMap (fun i =>
    (List.range m).flatMap (fun j => put_varint32 (values i j)))

/-- The final-pair override of `_end_encode`: the last run length becomes
the `0` sentinel. -/
def qualityOverride (h : List (Nat × Nat)) : List (Nat × Nat) :=
  match h.getLast? with
  | some (v, _) => h.dropLast ++ [(v, 0)]
  | none => h

/-- The RLE byte stream of one variable's quality history: for each pair,
`value` then `samples`, both unsigned varints. -/
def qualityRleBytes (h : List (Nat × Nat)) : List Nat :=
  h.flatMap (fun p => put_uvarint32 p.1 ++ put_uvarint32 p.2)

/-- The quality section of `_end_encode`: per variable, the RLE pairs
with the final run overridden to `0`.  (The source performs the override
by mutating the history it is about to reset; the written bytes are the
same.) -/
def qualityPayload (m : Nat) (qh : Nat → List (Nat × Nat)) : List Nat :=
  (List.range m).flatMap (fun i => qualityRleBytes (qualityOverride (qh i)))

/-- `Encoder::_end_encode`: write the sample-count varint, the payload
(Simple-8b words per variable, or signed varints), the quality RLE
streams — all consecutive stores at `self.len`, here assembled into one
append each; reset the quality history; DEFLATE the body when more than
4096 samples were encoded (a compressor failure yields the empty frame);
reset the counters and swap the ping-pong buffer. -/
def endEncodeGo (gz : GzFn) (s : Encoder) : Encoder × List Nat :=
  let s := pushBytes s (put_varint32 (s.encoded_samples % w32))
  let actual_header_len := s.len
  let payload :=
    (if s.using_simple8b then
      simple8bPayload s.i32_count (min s.encoded_samples s.samples_per_message) s.diffs
     else varintPayload s.encoded_samples s.i32_count s.values)
    ++ qualityPayload s.i32_count s.quality_history
  let s := pushBytes s payload
  let s := { s with quality_history := fun _ => [(0, 0)] }
  let frame :=
    if s.encoded_samples > USE_GZIP_THRESHOLD_SAMPLES then
      match gz ((List.range (s.len - actual_header_len)).map
          (fun k => buf s (actual_header_len + k))) with
      | none => []
      | some comp => (List.range actual_header_len).map (buf s) ++ comp
    else bufList s
  let s := { s with encoded_samples := 0, len := 0, use_buf_a := !s.use_buf_a }
  (s, frame)

/-- The header prologue of `Encoder::encode`: on the first sample of a
message write the 16-byte id at offset 0 and the big-endian timestamp at
offset 16 (leaving `len = 24`) and snapshot the quality; on later samples
extend the quality runs. -/
def headerPhase (s : Encoder) (data : DatasetWithQuality) : Encoder :=
  if s.encoded_samples = 0 then
    let s2 := setBuf s (writeBytes (buf s) 0 s.id)
    let s2 := { s2 with len := 16 }
    let s2 := pushBytes s2 (beBytes 8 data.t)
    { s2 with quality_history := qualitySnapshot data data.q.length 0 s2.quality_history }
  else { s with quality_history := qualityAppend data data.q.length 0 s.quality_history }

/-- The staging part of `Encoder::encode`: the per-variable delta loop
followed by `encoded_samples += 1`. -/
def stagePhase (s : Encoder) (data : DatasetWithQuality) : Encoder :=
  let stg := encodeVars s.using_simple8b s.use_xor s.delta_encoding_layers s.spatial_ref
    data s.encoded_samples data.i32s.length 0 ⟨s.prev_data, s.diffs, s.values⟩
  { s with prev_data := stg.prev, diffs := stg.diffs, values := stg.values,
           encoded_samples := s.encoded_samples + 1 }

/-- `Encoder::encode`: header prologue / quality accumulation, the
per-variable delta staging, and the flush through `_end_encode` when the
message is full.  The returned byte list is empty when no frame is
produced. -/
def encode (gz : GzFn) (s : Encoder) (data : DatasetWithQuality) : Encoder × List Nat :=
  let s := stagePhase (headerPhase s data) data
  if s.encoded_samples ≥ s.samples_per_message then endEncodeGo gz s
  else (s, [])

/-- `Encoder::end_encode`. -/
def end_encode (gz : GzFn) (s : Encoder) : Encoder × List Nat :=
  endEncodeGo gz s

/-- `Encoder::cancel_encode`: reset the quality history and counters and
leave `buf_b` active (`use_buf_a` is set to `false` when it was `true` and
is already `false` otherwise). -/
def cancel_encode (s : Encoder) : Encoder :=
  { s with quality_history := fun _ => [(0, 0)], encoded_samples := 0, len := 0,
           use_buf_a := false }

end Encoder

/-! ## Decoder (`decoder.rs`)

The `Decoder` struct.  The pre-allocated output vector
`out: Vec<DatasetWithQuality>` (length `samples_per_message`) is split
into its three fields as index functions `outT`, `outI32s`, `outQ`.
`decode_to_buffer` returns the final `Decoder` together with a `DStatus`:
`.ok` and `.err` are the source's `Ok(())` / `return Err(..)`, while
`.panicked` models a Rust panic (the `assert_eq!` id check, out-of-range
slice indexing of a too-short frame, the `uvarint32` overflow panic, and
the remainder-by-zero when a zero-sample frame still carries payload
words).  A panic aborts the call, so the `Decoder` paired with a
`.panicked` status is the state at entry of the failing phase. -/

inductive DStatus where
  | ok : DStatus
  | err (msg : String) : DStatus
  | panicked (msg : String) : DStatus
deriving Repr, DecidableEq

/-- The decoder's accumulation step: `^=` under XOR mode, wrapping `+=`
otherwise. -/
def accumI32 (use_xor : Bool) (a b : Nat) : Nat :=
  if use_xor then a ^^^ b else addI32 a b

structure Decoder where
  id : List Nat
  sampling_rate : Nat
  samples_per_message : Nat
  encoded_samples : Nat
  i32_count : Nat
  gz_buf : List Nat
  outT : Nat → Nat
  outI32s : Nat → Nat → Nat
  outQ : Nat → Nat → Nat
  start_timestamp : Nat
  using_simple8b : Bool
  delta_encoding_layers : Nat
  delta_sum : Nat → Nat → Nat
  use_xor : Bool
  spatial_ref : Nat → Int

namespace Decoder

/-- `Decoder::new`: zeroed output and `delta_sum`, `-1` spatial
references, arithmetic deltas. -/
def new (id : List Nat) (i32_count sampling_rate samples_per_message : Nat) : Decoder where
  id := id
  sampling_rate := sampling_rate
  samples_per_message := samples_per_message
  encoded_samples := 0
  i32_count := i32_count
  gz_buf := []
  outT := fun _ => 0
  outI32s := fun _ _ => 0
  outQ := fun _ _ => 0
  start_timestamp := 0
  using_simple8b := samples_per_message > SIMPLE8B_THRESHOLD_SAMPLES
  delta_encoding_layers := get_delta_encoding sampling_rate
  delta_sum := fun _ _ => 0
  use_xor := false
  spatial_ref := fun _ => -1

/-- `Decoder::set_xor`. -/
def set_xor (d : Decoder) (xor : Bool) : Decoder := { d with use_xor := xor }

/-- The delta-sum propagation shared by both decode branches: accumulate
the residual into layer `maxIndex` for variable `i`, then fold it
downwards (`for k in (1..=max_index).rev()`), and finally reconstruct
`out[ts].i32s[i]` from `out[ts-1].i32s[i]` and `delta_sum[0][i]`. -/
def deltaDecode (d : Decoder) (ts i decoded : Nat) : Decoder :=
  let maxIndex := min ts (d.delta_encoding_layers - 1) - 1
  let d := { d with delta_sum := fun k i2 =>
      if k = maxIndex ∧ i2 = i then accumI32 d.use_xor (d.delta_sum maxIndex i) decoded
      else d.delta_sum k i2 }
  let d := ((List.range maxIndex).reverse).foldl (fun d k0 =>
    let k := k0 + 1
    { d with delta_sum := fun kk i2 =>
        if kk = k - 1 ∧ i2 = i then accumI32 d.use_xor (d.delta_sum (k - 1) i) (d.delta_sum k i)
        else d.delta_sum kk i2 }) d
  { d with outI32s := fun k i2 =>
      if k = ts ∧ i2 = i then accumI32 d.use_xor (d.outI32s (ts - 1) i) (d.delta_sum 0 i)
      else d.outI32s k i2 }

/-- The spatial-reference fix-up run after the last decoded sample: for
every output row and every variable with a set reference, add the (already
fixed-up, since references point to lower indices visited earlier)
referenced variable back in. -/
def spatialFixup (d : Decoder) : Decoder :=
  (List.range d.samples_per_message).foldl (fun d ts =>
    (List.range d.i32_count).foldl (fun d i =>
      if d.spatial_ref i ≥ 0 then
        { d with outI32s := fun k i2 =>
            if k = ts ∧ i2 = i then
              addI32 (d.outI32s ts i) (d.outI32s ts (d.spatial_ref i).toNat)
            else d.outI32s k i2 }
      else d) d) d

/-- The captured state of the `for_each` callback in `decode_to_buffer`:
the closure's `decode_counter`, `index_ts` and `i` variables plus the
decoder itself. -/
structure CbState where
  decode_counter : Nat
  index_ts : Nat
  i : Nat
  d : Decoder

/-- The `for_each` callback of the Simple-8b decode branch.  With a
zero-sample frame the source computes `decode_counter % actual_samples`
with `actual_samples == 0`, a remainder-by-zero panic.  `index_ts == 0`
stores the inverse-zig-zagged value directly; later rows set
`out[index_ts].t = index_ts` and run the delta reconstruction.  When
`decode_counter` reaches `actual_samples * i32_count` the spatial fix-up
runs and the iteration stops (`false`). -/
def decodeCb (actual : Nat) (st : CbState) (v : Nat) : Except String (CbState × Bool) :=
  if actual = 0 then .error "remainder by zero"
  else
    let index_ts := st.decode_counter % actual
    let i := if st.decode_counter > 0 ∧ index_ts = 0 then st.i + 1 else st.i
    let decoded := zig_zag_decode64 v % w32
    let d := st.d
    let d :=
      if index_ts = 0 then
        { d with outI32s := fun k i2 =>
            if k = 0 ∧ i2 = i then decoded else d.outI32s k i2 }
      else
        let d := { d with outT := fun k => if k = index_ts then index_ts else d.outT k }
        deltaDecode d index_ts i decoded
    let st : CbState := ⟨st.decode_counter + 1, index_ts, i, d⟩
    if st.decode_counter = actual * st.d.i32_count then
      .ok ({ st with d := spatialFixup st.d }, false)
    else .ok (st, true)

/-- Simple-8b decode branch: run `for_each` over the payload; a `Result`
error of `for_each` is absorbed by `unwrap_or(0)` (the state mutations so
far persist), and the consumed length is `decoded_u64s * 8`. -/
def decodeSimple8b (d : Decoder) (actual : Nat) : Except String (Decoder × Nat) :=
  match for_each d.gz_buf (⟨0, 0, 0, d⟩ : CbState) (decodeCb actual) with
  | .error e => .error e
  | .ok (st, res) =>
    let decoded_u64s := match res with
      | .error _ => 0
      | .ok n => n
    .ok (st.d, decoded_u64s * 8)

/-- First-row varint loop of the varint decode branch: one signed varint
per variable into `out[0].i32s`. -/
def decodeFirstLoop : Nat → Nat → Decoder × Nat → Except String (Decoder × Nat)
  | 0, _, acc => .ok acc
  | fuel + 1, i, (d, length) =>
    match varint32 (d.gz_buf.drop length) with
    | .error e => .error e
    | .ok (v, n) =>
      decodeFirstLoop fuel (i + 1)
        ({ d with outI32s := fun k i2 =>
            if k = 0 ∧ i2 = i then v else d.outI32s k i2 }, length + n)

/-- Inner variable loop of the varint decode branch for row `total`. -/
def decodeVarVars (total : Nat) : Nat → Nat → Decoder × Nat → Except String (Decoder × Nat)
  | 0, _, acc => .ok acc
  | fuel + 1, i, (d, length) =>
    match varint32 (d.gz_buf.drop length) with
    | .error e => .error e
    | .ok (v, n) =>
      decodeVarVars total fuel (i + 1) (deltaDecode d total i v, length + n)

/-- Outer sample loop of the varint decode branch, entered with
`total = 1` when `actual_samples > 1`; the spatial fix-up runs on the
iteration that reaches `actual_samples`.  `fuel = actual` bounds the
iteration count. -/
def decodeVarSamples (actual : Nat) : Nat → Nat → Decoder × Nat → Except String (Decoder × Nat)
  | 0, _, acc => .ok acc
  | fuel + 1, total, (d, length) =>
    let d := { d with outT := fun k => if k = total then total else d.outT k }
    match decodeVarVars total d.i32_count 0 (d, length) with
    | .error e => .error e
    | .ok (d, length) =>
      if total + 1 ≥ actual then .ok (spatialFixup d, length)
      else decodeVarSamples actual fuel (total + 1) (d, length)

/-- The varint decode branch (`samples_per_message ≤ 16`): the first row,
then the delta-decoded remaining rows.  With `actual_samples ≤ 1` no
spatial fix-up runs (it sits inside the `actual_samples > 1` branch). -/
def decodeVarintBranch (d : Decoder) (actual : Nat) : Except String (Decoder × Nat) :=
  match decodeFirstLoop d.i32_count 0 (d, 0) with
  | .error e => .error e
  | .ok (d, length) =>
    if actual > 1 then decodeVarSamples actual actual 1 (d, length)
    else .ok (d, length)

/-- Sentinel fill of the quality expansion (`run == 0`): every remaining
row of variable `i` receives the current value. -/
def qualityFill0 (d : Decoder) (i sample_number : Nat) : Decoder :=
  (List.range' (sample_number + 1) (d.samples_per_message - (sample_number + 1))).foldl
    (fun d j =>
      { d with outQ := fun k i2 =>
          if k = j ∧ i2 = i then d.outQ sample_number i else d.outQ k i2 }) d

/-- Non-sentinel fill of the quality expansion: the source iterates
`j in (sample_number + 1)..(run)` — the upper bound is the run length
itself, not `sample_number + run` — guarded by `j < out.len()`. -/
def qualityFillRun (d : Decoder) (i sample_number v2 : Nat) : Decoder :=
  (List.range' (sample_number + 1) (v2 - (sample_number + 1))).foldl
    (fun d j =>
      if sample_number < d.samples_per_message ∧ j < d.samples_per_message then
        { d with outQ := fun k i2 =>
            if k = j ∧ i2 = i then d.outQ sample_number i else d.outQ k i2 }
      else d) d

/-- The `while sample_number < actual_samples` quality loop for variable
`i`: read a `(value, run)` pair of unsigned varints, store the value at
the current row, and expand the run.  Each iteration advances
`sample_number` by at least one, so `fuel = actual + 1` suffices. -/
def qualityWhile (actual i : Nat) : Nat → Nat → Decoder × Nat → Except String (Decoder × Nat)
  | 0, _, acc => .ok acc
  | fuel + 1, sample_number, (d, length) =>
    if sample_number < actual then
      match uvarint32 (d.gz_buf.drop length) with
      | .error e => .error e
      | .ok (v1, n1) =>
        let d := { d with outQ := fun k i2 =>
            if k = sample_number ∧ i2 = i then v1 else d.outQ k i2 }
        let length := length + n1
        match uvarint32 (d.gz_buf.drop length) with
        | .error e => .error e
        | .ok (v2, n2) =>
          let length := length + n2
          if v2 = 0 then .ok (qualityFill0 d i sample_number, length)
          else qualityWhile actual i fuel (sample_number + v2)
            (qualityFillRun d i sample_number v2, length)
    else .ok (d, length)

/-- The per-variable quality loop. -/
def qualityLoop (actual : Nat) : Nat → Nat → Decoder × Nat → Except String (Decoder × Nat)
  | 0, _, acc => .ok acc
  | fuel + 1, i, acc =>
    match qualityWhile actual i (actual + 1) 0 acc with
    | .error e => .error e
    | .ok acc => qualityLoop actual fuel (i + 1) acc

/-- The final `delta_sum` zeroing loops of `decode_to_buffer`. -/
def zeroDeltaSum (d : Decoder) : Decoder :=
  (List.range (d.delta_encoding_layers - 1)).foldl (fun d j =>
    (List.range d.i32_count).foldl (fun d i =>
      { d with delta_sum := fun j2 i2 =>
          if j2 = j ∧ i2 = i then 0 else d.delta_sum j2 i2 }) d) d

/-- `Decoder::decode_to_buffer`: id check (`assert_eq!`, a panic on
mismatch), timestamp, sample-count varint, optional inflate (its failure
is the one returned `Err`), payload decode, quality expansion, and the
final `delta_sum` zeroing. -/
def decode_to_buffer (gz : GzFn) (d : Decoder) (buf : List Nat) : Decoder × DStatus :=
  if buf.length < 16 then (d, .panicked "index out of range")
  else if buf.take 16 ≠ d.id then (d, .panicked "IDs did not match")
  else if buf.length < 24 then (d, .panicked "index out of range")
  else
    let ts := beU64 ((buf.drop 16).take 8)
    let d := { d with start_timestamp := ts,
                      outT := fun k => if k = 0 then ts else d.outT k }
    match varint32 (buf.drop 24) with
    | .error e => (d, .panicked e)
    | .ok (vs, len_b) =>
      let d := { d with encoded_samples := usizeOfI32 vs }
      let actual := min d.encoded_samples d.samples_per_message
      let length := 24 + len_b
      let d := { d with gz_buf := [] }
      let body := fun (d : Decoder) =>
        match (if d.using_simple8b then decodeSimple8b d actual
               else decodeVarintBranch d actual) with
        | .error e => (d, DStatus.panicked e)
        | .ok (d, length2) =>
          match qualityLoop actual d.i32_count 0 (d, length2) with
          | .error e => (d, DStatus.panicked e)
          | .ok (d, _) => (zeroDeltaSum d, DStatus.ok)
      if actual > USE_GZIP_THRESHOLD_SAMPLES then
        match gz (buf.drop length) with
        | none => (d, .err "gzip error")
        | some gb => body { d with gz_buf := gb }
      else body { d with gz_buf := buf.drop length }

end Decoder

/-! ## Derived notions and concrete runs used by the claim analyses -/

/-- Iterate `Encoder::encode` over a list of sample-sets, collecting every
returned byte buffer (empty when no frame was produced): the observable
output stream of the encoder. -/
def encodeRun (gz : GzFn) : Encoder → List DatasetWithQuality → Encoder × List (List Nat)
  | s, [] => (s, [])
  | s, sp :: rest =>
    let r := Encoder.encode gz s sp
    let r2 := encodeRun gz r.1 rest
    (r2.1, r.2 :: r2.2)

/-- A compressor/decompressor that always fails; no concrete run below
reaches the DEFLATE branch (4096-sample threshold). -/
def gzNone : GzFn := fun _ => none

/-- A 16-byte stream id. -/
def idA : List Nat := List.replicate 16 17

/-- A different 16-byte stream id. -/
def idB : List Nat := List.replicate 16 34

/-- The `delta_sum` accumulators of a decoder are entirely zero: every
layer below `delta_encoding_layers - 1`, every variable below
`i32_count`. -/
def deltaZero (d : Decoder) : Prop :=
  ∀ j < d.delta_encoding_layers - 1, ∀ i < d.i32_count, d.delta_sum j i = 0

/-- A freshly constructed encoder with the same configuration as `s`,
including the `set_xor` and `set_spatial_refs` settings. -/
def freshLike (s : Encoder) : Encoder :=
  { Encoder.new s.id s.i32_count s.sampling_rate s.samples_per_message with
      use_xor := s.use_xor, spatial_ref := s.spatial_ref }

/-- The derived configuration fields hold the values `Encoder::new`
establishes; true of every reachable encoder state. -/
def WfEncoder (s : Encoder) : Prop :=
  s.using_simple8b = decide (s.samples_per_message > SIMPLE8B_THRESHOLD_SAMPLES) ∧
  s.delta_encoding_layers = get_delta_encoding s.sampling_rate

/-- Every sample-set carries `m` variables and `m` quality words. -/
def WfSamples (m : Nat) (samples : List DatasetWithQuality) : Prop :=
  ∀ sp ∈ samples, sp.i32s.length = m ∧ sp.q.length = m

/-- C1 input: one variable, four samples per message, quality sequence
`5, 7, 7, 9` (a two-sample run starting at sample 1). -/
def c1samples : List DatasetWithQuality :=
  [⟨0, [0], [5]⟩, ⟨1, [1], [7]⟩, ⟨2, [2], [7]⟩, ⟨3, [3], [9]⟩]

/-- The single frame the encoder produces from `c1samples`. -/
def c1frame : List Nat :=
  (encodeRun gzNone (Encoder.new idA 1 4000 4) c1samples).2.flatten

/-- Decoding `c1frame` with the identically configured decoder. -/
def c1dec : Decoder × DStatus :=
  Decoder.decode_to_buffer gzNone (Decoder.new idA 1 4000 4) c1frame

/-- C2 input: the quality sequence `3, 4, 4, 6` for one variable
(`i32s` all zero), so the pair list is `(3,1), (4,2), (6,0)`. -/
def c2samples : List DatasetWithQuality :=
  [⟨0, [0], [3]⟩, ⟨1, [0], [4]⟩, ⟨2, [0], [4]⟩, ⟨3, [0], [6]⟩]

/-- The frame from `c2samples` and its decode. -/
def c2dec : Decoder × DStatus :=
  Decoder.decode_to_buffer gzNone (Decoder.new idA 1 4000 4)
    (encodeRun gzNone (Encoder.new idA 1 4000 4) c2samples).2.flatten

/-- A callback that collects every value and always continues. -/
def collectCb (s : List Nat) (v : Nat) : Except String (List Nat × Bool) :=
  .ok (s ++ [v], true)

/-- C3 input: 240 copies of the value 1 (selector 0's RLE-1 case). -/
def c3src : List Nat := List.replicate 240 1

/-- The byte stream `encode_all` produces from `c3src`. -/
def c3bytes : List Nat :=
  (match encode_all c3src with
   | .ok ws => ws
   | .error _ => []).flatMap (beBytes 8)

/-- The values `for_each` hands to a collecting callback on `c3bytes`. -/
def c3decoded : List Nat :=
  match for_each c3bytes [] collectCb with
  | .ok (vs, _) => vs
  | .error _ => []

/-- C4: a frame produced by an encoder with id `idB` (one sample per
message, so `encode` flushes immediately). -/
def c4frame : List Nat :=
  (Encoder.encode gzNone (Encoder.new idB 1 4000 1) ⟨0, [42], [1]⟩).2

/-- C4: decoding that frame with a decoder configured with id `idA`. -/
def c4dec : Decoder × DStatus :=
  Decoder.decode_to_buffer gzNone (Decoder.new idA 1 4000 1) c4frame

/-- C7: `end_encode` on a freshly constructed encoder, zero samples
encoded. -/
def c7run : Encoder × List Nat :=
  Encoder.end_encode gzNone (Encoder.new idA 1 4000 4)

/-- C7: feeding that frame to an identically configured decoder. -/
def c7dec : Decoder × DStatus :=
  Decoder.decode_to_buffer gzNone (Decoder.new idA 1 4000 4) c7run.2

/-- C8 counterexample input: 240 ones followed by a 2; the *next 240*
elements are all ones, but the *remainder* is not. -/
def c8src : List Nat := List.replicate 240 1 ++ [2]

/-- The selector of the first word `encode_all` emits for `c8src`
(99 as an impossible placeholder for error/empty). -/
def c8firstSel : Nat :=
  match encode_all c8src with
  | .ok (w :: _) => w >>> 60
  | _ => 99

/-- Following the spec's words for the selector search: the first selector
in table order 0..15 that `can_pack` accepts for the head of `src`. -/
def firstFitSel (src : List Nat) : Option Nat :=
  [0, 1, 2, 3, 4, 5, 6, 7, 8, 9, 10, 11, 12, 13, 14, 15].find?
    (fun sel => can_pack src (selN sel) (selBit sel))

/-- Two encoder states share their immutable configuration (including the
`set_xor` / `set_spatial_refs` settings and the construction-derived
fields). -/
def SameConfig (a b : Encoder) : Prop :=
  a.id = b.id ∧ a.sampling_rate = b.sampling_rate ∧
  a.samples_per_message = b.samples_per_message ∧ a.i32_count = b.i32_count ∧
  a.using_simple8b = b.using_simple8b ∧
  a.delta_encoding_layers = b.delta_encoding_layers ∧ a.use_xor = b.use_xor ∧
  a.spatial_ref = b.spatial_ref

/-- Observational agreement of two encoder states `k` samples into the
current message: equal configuration and counters, equal written buffer
prefix of the active ping-pong buffer, equal quality history, and equal
contents of the parts of the staging stores that the remaining execution
can still read — `prev_data` layers below `min k L` and the residuals of
the `k` samples staged so far (the scratch beyond those regions is
written before it is next read, so it never influences output). -/
structure EncEquiv (k : Nat) (a b : Encoder) : Prop where
  hcfg : SameConfig a b
  henc : a.encoded_samples = k
  hencB : b.encoded_samples = k
  hlen : a.len = b.len
  hbuf : ∀ p, p < a.len → Encoder.buf a p = Encoder.buf b p
  hqh : a.quality_history = b.quality_history
  hprev : ∀ kk, kk < min k a.delta_encoding_layers → ∀ i, i < a.i32_count →
    a.prev_data kk i = b.prev_data kk i
  hdiffs : a.using_simple8b = true → ∀ i, i < a.i32_count → ∀ jj, jj < k →
    a.diffs i jj = b.diffs i jj
  hvals : a.using_simple8b = false → ∀ jj, jj < k → ∀ i, i < a.i32_count →
    a.values jj i = b.values jj i

/-- Mid-loop agreement for the variable loop at sample `j`: variables
below `t` already carry the extended layer region `min (j+1) L` and the
fresh residual at `j`; variables from `t` on still carry the pre-sample
region `min j L`. -/
structure StgEquiv (useS8b : Bool) (L m j t : Nat) (x y : Encoder.Staging) : Prop where
  prevNew : ∀ i, i < t → ∀ kk, kk < min (j + 1) L → x.prev kk i = y.prev kk i
  prevOld : ∀ i, t ≤ i → i < m → ∀ kk, kk < min j L → x.prev kk i = y.prev kk i
  diffsNew : useS8b = true → ∀ i, i < t → x.diffs i j = y.diffs i j
  diffsOld : useS8b = true → ∀ i, i < m → ∀ jj, jj < j → x.diffs i jj = y.diffs i jj
  valsNew : useS8b = false → ∀ i, i < t → x.values j i = y.values j i
  valsOld : useS8b = false → ∀ jj, jj < j → ∀ i, i < m → x.values jj i = y.values jj i

/-- The frame `_end_encode` produces, as a function of the pre-call
sample count, write position, buffer contents, count varint and payload:
the body is appended at `len`, and the frame is either the written prefix
(below the DEFLATE threshold) or the header prefix followed by the
compressed body. -/
def endFrameCore (gz : GzFn) (e len : Nat) (bufp : Nat → Nat) (v pay : List Nat) : List Nat :=
  let hl := len + v.length
  let full := writeBytes (writeBytes bufp len v) hl pay
  let flen := hl + pay.length
  if e > USE_GZIP_THRESHOLD_SAMPLES then
    match gz ((List.range (flen - hl)).map (fun p => full (hl + p))) with
    | none => []
    | some comp => (List.range hl).map full ++ comp
  else (List.range flen).map full

/-- The frame `_end_encode` produces from encoder state `s` (shown equal
to `(endEncodeGo gz s).2` below): the sample-count varint, the Simple-8b
or varint payload and the quality RLE streams appended to the currently
written prefix. -/
def endFrame (gz : GzFn) (s : Encoder) : List Nat :=
  endFrameCore gz s.encoded_samples s.len (Encoder.buf s)
    (put_varint32 (s.encoded_samples % w32))
    ((if s.using_simple8b then
        Encoder.simple8bPayload s.i32_count (min s.encoded_samples s.samples_per_message) s.diffs
      else Encoder.varintPayload s.encoded_samples s.i32_count s.values)
      ++ Encoder.qualityPayload s.i32_count s.quality_history)

/-- C9 dirty input state: the encoder mid-message after two `encode`
calls (no flush yet), so `len`, `encoded_samples`, `prev_data`, `diffs`
and the quality history all hold residue of the aborted message. -/
def c9state : Encoder :=
  (encodeRun gzNone (Encoder.new idA 1 4000 4) [⟨0, [3], [1]⟩, ⟨1, [5], [1]⟩]).1

/-- C9 witness samples: one further sample-set fed after the reset. -/
def c9samples : List DatasetWithQuality := [⟨10, [7], [2]⟩]

/-! ## Claim theorems -/

/-- **C1** (code_bug): the round-trip identity fails on the code.  For the
configuration `M = 1`, `N = 4` and input `c1samples` (quality
`5, 7, 7, 9`), encoding and decoding with identical configurations
succeeds, reproduces the integer samples, but yields the quality sequence
`5, 7, 0, 9`: the quality word of sample 2 — inside a run that starts at
sample 1 — is left at the decoder's stale initial value instead of `7`,
so the concatenated output does not equal the input. -/
theorem c1_roundtrip_identity_fails :
    c1dec.2 = DStatus.ok ∧
    ((List.range 4).map (fun k => c1dec.1.outI32s k 0)) =
      (c1samples.map (fun sp => sp.i32s.getD 0 0)) ∧
    ((List.range 4).map (fun k => c1dec.1.outQ k 0)) = [5, 7, 0, 9] ∧
    ((List.range 4).map (fun k => c1dec.1.outQ k 0)) ≠
      (c1samples.map (fun sp => sp.q.getD 0 0)) := by
  decide

/-- **C2** (code_bug): the quality RLE law fails for runs that start
after the first sample.  For `Q = 3, 4, 4, 6` (one variable, `N = 4`) the
encoder emits the pairs `(3,1), (4,2), (6,0)`, but the decoder's run
expansion loop iterates `j in (sample_number+1)..run` — the upper bound is
the run length itself instead of `sample_number + run` — so for the run of
length 2 starting at sample 1 it fills nothing and sample 2 keeps the
stale value 0 instead of 4. -/
theorem c2_quality_rle_law_fails :
    c2dec.2 = DStatus.ok ∧
    ((List.range 4).map (fun k => c2dec.1.outQ k 0)) = [3, 4, 0, 6] ∧
    ((List.range 4).map (fun k => c2dec.1.outQ k 0)) ≠
      (c2samples.map (fun sp => sp.q.getD 0 0)) := by
  decide

/-- **C3** (code_bug): the Simple-8b round-trip through `for_each` fails
on RLE-1 words.  `encode_all` packs 240 ones into the single word `0`
(selector 0), but `for_each` computes its value mask as
`!((!0i64) << bits)`, which is `0` when `bits = 0`, and therefore hands
the callback 240 zeros — while `decode_all`'s `unpack240` in the same
file fills 240 ones. -/
theorem c3_simple8b_for_each_roundtrip_fails :
    encode_all c3src = .ok [0] ∧
    c3decoded = List.replicate 240 0 ∧
    c3decoded ≠ c3src :=
  ⟨rfl, by decide, by decide⟩

/-- **C4** (code_bug): an id mismatch does not return an error value.
Feeding a frame produced under id `idB` to a decoder configured with
`idA` hits the `assert_eq!` in `decode_to_buffer`, a panic with message
"IDs did not match" — not a `Result::Err` as the spec (and the
`test_wrong_id` test, which matches on a returned error) expect.  The
decoder state, in particular `out`, is untouched at that point. -/
theorem c4_id_mismatch_panics_not_returned_error :
    c4dec = (Decoder.new idA 1 4000 1, DStatus.panicked "IDs did not match") ∧
    (∀ msg, c4dec.2 ≠ DStatus.err msg) := by
  refine ⟨rfl, fun msg h => ?_⟩
  rw [show c4dec.2 = DStatus.panicked "IDs did not match" from rfl] at h
  exact DStatus.noConfusion h

/-- **C6** (code_bug): a malformed varint of six continuation bytes does
not fail with a decode error.  The overflow guard of `uvarint32` only
fires at the tenth byte (`i > 9 || i == 9 && b > 1`, copied from Go's
64-bit varint), so `[0x80; 6]` falls off the end of the buffer and
returns `(0, 0)` as if the buffer were merely short, and the terminated
chain `0x80 ×5, 0x01` produces the bogus value `8` (from a shift of 35
masked to 3) — in neither case an error. -/
theorem c6_varint_overflow_not_detected :
    uvarint32 [128, 128, 128, 128, 128, 128] = .ok (0, 0) ∧
    uvarint32 [128, 128, 128, 128, 128, 1] = .ok (8, 6) :=
  ⟨rfl, rfl⟩

/-- **C7** (code_bug): `end_encode` with zero samples encoded emits no
header.  On a fresh encoder (`M = 1`) the frame is the three bytes
`[0, 0, 0]` — the sample-count varint `0` followed by one `(0, 0)`
quality pair — with no 16-byte id and no timestamp (those are only
written by the first `encode` call), and decoding it panics indexing
`buf[..16]` instead of yielding an empty output without error. -/
theorem c7_empty_end_encode_headerless :
    c7run.2 = [0, 0, 0] ∧
    c7run.2.take 16 ≠ idA ∧
    c7dec.2 = DStatus.panicked "index out of range" := by
  decide

/-- **C8 counterexample**: the claim that "exactly the next N values
(240 or 120) being equal to 1 suffices" for selector 0 or 1 to be chosen
is false.  For `c8src` (240 ones then a 2) the next 240 values are all 1,
yet `can_pack` rejects selectors 0 and 1 — its `bits == 0` scan runs over
the whole remaining slice — and `encode_all` picks selector 2 for the
first word. -/
theorem c8_next240_ones_not_sufficient :
    (c8src.take 240).all (· == 1) = true ∧
    240 ≤ c8src.length ∧
    can_pack c8src 240 0 = false ∧
    c8firstSel = 2 := by
  decide

/-- **C8 amended**: at each position the encoder tries selectors 0..15 in
order and chooses the first whose `can_pack` test accepts the remaining
input (`encodeStep` equals the first-fit search over the selector table);
a selector with `B > 0` accommodates when at least `N` elements remain and
each of the next `N` is at most `2^B - 1`, while selectors 0 and 1
accommodate only when at least `N` elements remain and *every* remaining
element equals 1. -/
theorem c8_selector_first_fit_amended :
    (∀ src : List Nat, encodeStep src =
      match firstFitSel src with
      | none => .error "value out of bounds"
      | some 0 => .ok (0, 240)
      | some 1 => .ok (1 <<< 60, 120)
      | some sel => .ok (packWord sel (src.take (selN sel)), selN sel)) ∧
    (∀ (src : List Nat) (n bits : Nat),
      can_pack src n bits = true ↔
        (n ≤ src.length ∧
          if bits = 0 then ∀ x ∈ src, x = 1
          else ∀ x ∈ src.take n, x ≤ 2 ^ bits - 1)) := by
  constructor
  · intro src
    have pos : ∀ (a : Nat) (l : List Nat), can_pack src (selN a) (selBit a) = true →
        List.find? (fun sel => can_pack src (selN sel) (selBit sel)) (a :: l) = some a :=
      fun _ l h => List.find?_cons_of_pos l h
    have neg : ∀ (a : Nat) (l : List Nat), ¬ can_pack src (selN a) (selBit a) = true →
        List.find? (fun sel => can_pack src (selN sel) (selBit sel)) (a :: l) =
          List.find? (fun sel => can_pack src (selN sel) (selBit sel)) l :=
      fun _ l h => List.find?_cons_of_neg l h
    unfold encodeStep firstFitSel
    by_cases h0 : can_pack src 240 0 = true
    · rw [if_pos h0, pos 0 _ h0]
    rw [if_neg h0, neg 0 _ h0]
    by_cases h1 : can_pack src 120 0 = true
    · rw [if_pos h1, pos 1 _ h1]
    rw [if_neg h1, neg 1 _ h1]
    by_cases h2 : can_pack src 60 1 = true
    · rw [if_pos h2, pos 2 _ h2]
      rfl
    rw [if_neg h2, neg 2 _ h2]
    by_cases h3 : can_pack src 30 2 = true
    · rw [if_pos h3, pos 3 _ h3]
      rfl
    rw [if_neg h3, neg 3 _ h3]
    by_cases h4 : can_pack src 20 3 = true
    · rw [if_pos h4, pos 4 _ h4]
      rfl
    rw [if_neg h4, neg 4 _ h4]
    by_cases h5 : can_pack src 15 4 = true
    · rw [if_pos h5, pos 5 _ h5]
      rfl
    rw [if_neg h5, neg 5 _ h5]
    by_cases h6 : can_pack src 12 5 = true
    · rw [if_pos h6, pos 6 _ h6]
      rfl
    rw [if_neg h6, neg 6 _ h6]
    by_cases h7 : can_pack src 10 6 = true
    · rw [if_pos h7, pos 7 _ h7]
      rfl
    rw [if_neg h7, neg 7 _ h7]
    by_cases h8 : can_pack src 8 7 = true
    · rw [if_pos h8, pos 8 _ h8]
      rfl
    rw [if_neg h8, neg 8 _ h8]
    by_cases h9 : can_pack src 7 8 = true
    · rw [if_pos h9, pos 9 _ h9]
      rfl
    rw [if_neg h9, neg 9 _ h9]
    by_cases h10 : can_pack src 6 10 = true
    · rw [if_pos h10, pos 10 _ h10]
      rfl
    rw [if_neg h10, neg 10 _ h10]
    by_cases h11 : can_pack src 5 12 = true
    · rw [if_pos h11, pos 11 _ h11]
      rfl
    rw [if_neg h11, neg 11 _ h11]
    by_cases h12 : can_pack src 4 15 = true
    · rw [if_pos h12, pos 12 _ h12]
      rfl
    rw [if_neg h12, neg 12 _ h12]
    by_cases h13 : can_pack src 3 20 = true
    · rw [if_pos h13, pos 13 _ h13]
      rfl
    rw [if_neg h13, neg 13 _ h13]
    by_cases h14 : can_pack src 2 30 = true
    · rw [if_pos h14, pos 14 _ h14]
      rfl
    rw [if_neg h14, neg 14 _ h14]
    by_cases h15 : can_pack src 1 60 = true
    · rw [if_pos h15, pos 15 _ h15]
      rfl
    rw [if_neg h15, neg 15 _ h15]
    rfl
  · intro src n bits
    rcases Nat.lt_or_ge src.length n with hlen | hlen
    · simp [can_pack, hlen, Nat.not_le.mpr hlen]
    · have hnl : ¬ src.length < n := Nat.not_lt.mpr hlen
      simp only [can_pack, if_neg hnl]
      by_cases hb : bits = 0
      · subst hb
        simp [List.all_eq_true, hlen, beq_iff_eq]
      · simp [hb, List.all_eq_true, hlen, Nat.shiftLeft_eq, decide_eq_true_eq]

theorem beU64_foldl_lt (l : List Nat) : ∀ acc, (∀ x ∈ l, x < 256) →
    l.foldl (fun a b => a * 256 + b) acc < (acc + 1) * 256 ^ l.length := by
  induction l with
  | nil => intro acc _; simp
  | cons b l ih =>
    intro acc h
    have hb : b < 256 := h b (List.mem_cons_self _ _)
    have h2 := ih (acc * 256 + b) (fun x hx => h x (List.mem_cons_of_mem _ hx))
    calc (b :: l).foldl (fun a b => a * 256 + b) acc
        = l.foldl (fun a b => a * 256 + b) (acc * 256 + b) := rfl
      _ < (acc * 256 + b + 1) * 256 ^ l.length := h2
      _ ≤ ((acc + 1) * 256) * 256 ^ l.length :=
          Nat.mul_le_mul_right _ (by omega)
      _ = (acc + 1) * 256 ^ (b :: l).length := by
          rw [List.length_cons, pow_succ]; ring

theorem beU64_word_sel_lt (b0 b1 b2 b3 b4 b5 b6 b7 : Nat)
    (h : ∀ x ∈ [b0, b1, b2, b3, b4, b5, b6, b7], x < 256) :
    beU64 [b0, b1, b2, b3, b4, b5, b6, b7] >>> 60 < 16 := by
  have hv := beU64_foldl_lt [b0, b1, b2, b3, b4, b5, b6, b7] 0 h
  have hv2 : beU64 [b0, b1, b2, b3, b4, b5, b6, b7] < 2 ^ 60 * 16 := by
    have he : ((0 : Nat) + 1) * 256 ^ ([b0, b1, b2, b3, b4, b5, b6, b7] : List Nat).length
        = 2 ^ 60 * 16 := by norm_num
    rw [he] at hv
    exact hv
  rw [Nat.shiftRight_eq_div_pow]
  exact Nat.div_lt_of_lt_mul hv2

theorem forEachWordLoop_true {σ : Type _} (f : σ → Nat → σ × Bool)
    (hf : ∀ s v, (f s v).2 = true) (bits mask : Nat) :
    ∀ (n v : Nat) (s : σ), ∃ s2,
      forEachWordLoop bits mask (fun s v => .ok (f s v)) n v s = .ok (s2, true) := by
  intro n
  induction n with
  | zero => intro v s; exact ⟨s, rfl⟩
  | succ n ih =>
    intro v s
    rcases hsv : f s (v &&& mask) with ⟨s1, b1⟩
    have hb1 : b1 = true := by
      have hx := hf s (v &&& mask)
      rw [hsv] at hx
      exact hx
    subst hb1
    obtain ⟨s2, h2⟩ := ih (v >>> bits) s1
    exact ⟨s2, by simp only [forEachWordLoop, hsv]; exact h2⟩

theorem forEachGo_true {σ : Type _} (f : σ → Nat → σ × Bool)
    (hf : ∀ s v, (f s v).2 = true) :
    ∀ (n : Nat) (b : List Nat) (s : σ) (count : Nat), b.length ≤ 8 * n + 7 →
      (∀ x ∈ b, x < 256) →
      ∃ s2, forEachGo (fun s v => .ok (f s v)) b s count =
        .ok (s2, .ok (count + b.length / 8)) := by
  intro n
  induction n with
  | zero =>
    intro b s count hlen hb
    rcases b with _|⟨b0,_|⟨b1,_|⟨b2,_|⟨b3,_|⟨b4,_|⟨b5,_|⟨b6,_|⟨b7,rest⟩⟩⟩⟩⟩⟩⟩⟩ <;>
      first
        | (exfalso; simp only [List.length_cons, List.length_nil] at hlen; omega)
        | exact ⟨s, by simp [forEachGo]⟩
  | succ n ih =>
    intro b s count hlen hb
    rcases b with _|⟨b0,_|⟨b1,_|⟨b2,_|⟨b3,_|⟨b4,_|⟨b5,_|⟨b6,_|⟨b7,rest⟩⟩⟩⟩⟩⟩⟩⟩
    case nil => exact ⟨s, by simp [forEachGo]⟩
    case cons.nil => exact ⟨s, by simp [forEachGo]⟩
    case cons.cons.nil => exact ⟨s, by simp [forEachGo]⟩
    case cons.cons.cons.nil => exact ⟨s, by simp [forEachGo]⟩
    case cons.cons.cons.cons.nil => exact ⟨s, by simp [forEachGo]⟩
    case cons.cons.cons.cons.cons.nil => exact ⟨s, by simp [forEachGo]⟩
    case cons.cons.cons.cons.cons.cons.nil => exact ⟨s, by simp [forEachGo]⟩
    case cons.cons.cons.cons.cons.cons.cons.nil => exact ⟨s, by simp [forEachGo]⟩
    case _ =>
      have hbytes : ∀ x ∈ [b0, b1, b2, b3, b4, b5, b6, b7], x < 256 := by
        intro x hx
        apply hb
        simp only [List.mem_cons] at hx ⊢
        tauto
      have hsel := beU64_word_sel_lt b0 b1 b2 b3 b4 b5 b6 b7 hbytes
      have hsel2 : ¬ beU64 [b0, b1, b2, b3, b4, b5, b6, b7] >>> 60 ≥ 16 :=
        Nat.not_le.mpr hsel
      obtain ⟨s2, hw⟩ := forEachWordLoop_true f hf
        (selBit (beU64 [b0, b1, b2, b3, b4, b5, b6, b7] >>> 60))
        ((w64 - 1) ^^^ (((w64 - 1) <<< selBit (beU64 [b0, b1, b2, b3, b4, b5, b6, b7] >>> 60)) % w64))
        (selN (beU64 [b0, b1, b2, b3, b4, b5, b6, b7] >>> 60))
        (beU64 [b0, b1, b2, b3, b4, b5, b6, b7]) s
      have hlenr : rest.length ≤ 8 * n + 7 := by
        simp only [List.length_cons] at hlen
        omega
      have hbr : ∀ x ∈ rest, x < 256 := by
        intro x hx
        apply hb
        simp only [List.mem_cons]
        tauto
      obtain ⟨s3, hrest⟩ := ih rest s2 (count + 1) hlenr hbr
      refine ⟨s3, ?_⟩
      have hcount : count + (b0 :: b1 :: b2 :: b3 :: b4 :: b5 :: b6 :: b7 :: rest).length / 8
          = (count + 1) + rest.length / 8 := by
        simp only [List.length_cons]
        have h8 : rest.length + 1 + 1 + 1 + 1 + 1 + 1 + 1 + 1 = rest.length + 8 := by omega
        rw [h8, Nat.add_div_right _ (by norm_num)]
        omega
      rw [hcount]
      simp only [forEachGo, if_neg hsel2, hw]
      exact hrest

theorem count_bytes_trailing :
    ∀ (n : Nat) (b : List Nat) (count : Nat), b.length ≤ 8 * n + 7 →
      (∀ x ∈ b, x < 256) → b.length % 8 ≠ 0 →
      ∃ msg, count_bytes b count = .error msg := by
  intro n
  induction n with
  | zero =>
    intro b count hlen hb hmod
    rcases b with _|⟨b0,_|⟨b1,_|⟨b2,_|⟨b3,_|⟨b4,_|⟨b5,_|⟨b6,_|⟨b7,rest⟩⟩⟩⟩⟩⟩⟩⟩ <;>
      first
        | (exfalso;
           simp only [List.length_cons, List.length_nil] at hlen hmod; omega)
        | exact ⟨_, rfl⟩
  | succ n ih =>
    intro b count hlen hb hmod
    rcases b with _|⟨b0,_|⟨b1,_|⟨b2,_|⟨b3,_|⟨b4,_|⟨b5,_|⟨b6,_|⟨b7,rest⟩⟩⟩⟩⟩⟩⟩⟩
    case nil => exact absurd rfl hmod
    case cons.nil => exact ⟨_, rfl⟩
    case cons.cons.nil => exact ⟨_, rfl⟩
    case cons.cons.cons.nil => exact ⟨_, rfl⟩
    case cons.cons.cons.cons.nil => exact ⟨_, rfl⟩
    case cons.cons.cons.cons.cons.nil => exact ⟨_, rfl⟩
    case cons.cons.cons.cons.cons.cons.nil => exact ⟨_, rfl⟩
    case cons.cons.cons.cons.cons.cons.cons.nil => exact ⟨_, rfl⟩
    case _ =>
      have hbytes : ∀ x ∈ [b0, b1, b2, b3, b4, b5, b6, b7], x < 256 := by
        intro x hx
        apply hb
        simp only [List.mem_cons] at hx ⊢
        tauto
      have hsel := beU64_word_sel_lt b0 b1 b2 b3 b4 b5 b6 b7 hbytes
      have hsel2 : ¬ beU64 [b0, b1, b2, b3, b4, b5, b6, b7] >>> 60 ≥ 16 :=
        Nat.not_le.mpr hsel
      have hlenr : rest.length ≤ 8 * n + 7 := by
        simp only [List.length_cons] at hlen
        omega
      have hbr : ∀ x ∈ rest, x < 256 := by
        intro x hx
        apply hb
        simp only [List.mem_cons]
        tauto
      have hmodr : rest.length % 8 ≠ 0 := by
        simp only [List.length_cons] at hmod
        omega
      obtain ⟨msg, hm⟩ := ih rest (count + selN (beU64 [b0, b1, b2, b3, b4, b5, b6, b7] >>> 60))
        hlenr hbr hmodr
      exact ⟨msg, by simp only [count_bytes, if_neg hsel2]; exact hm⟩

/-- **C10** (confirmed): for every byte slice `b` and every callback that
always returns `true`, `for_each` processes exactly the `⌊len(b)/8⌋`
complete 8-byte words and returns `Ok` with that word count, silently
ignoring 1–7 trailing bytes; `count_bytes` on the same slice returns an
error for the leftover bytes.  (`v >> 60 < 16` always holds for a `u64`,
so the selector check never fires on the complete-word path.) -/
theorem c10_for_each_ignores_trailing_bytes :
    ∀ b : List Nat, (∀ x ∈ b, x < 256) →
      (∀ (σ : Type) (s : σ) (f : σ → Nat → σ × Bool), (∀ s v, (f s v).2 = true) →
        ∃ s2, for_each b s (fun s v => .ok (f s v)) = .ok (s2, .ok (b.length / 8))) ∧
      (b.length % 8 ≠ 0 → ∃ msg, count_bytes b 0 = .error msg) := by
  intro b hb
  constructor
  · intro σ s f hf
    obtain ⟨s2, h⟩ := forEachGo_true f hf b.length b s 0 (by omega) hb
    rw [Nat.zero_add] at h
    exact ⟨s2, h⟩
  · intro hmod
    exact count_bytes_trailing b.length b 0 (by omega) hb hmod

/-- Witness for C10: the 9-byte slice `[1,…,9]` holds one complete word
and one trailing byte; a counting callback sees exactly one word and
`count_bytes` rejects the slice. -/
theorem c10_for_each_ignores_trailing_bytes_witness :
    (∀ x ∈ ([1, 2, 3, 4, 5, 6, 7, 8, 9] : List Nat), x < 256) ∧
    (([1, 2, 3, 4, 5, 6, 7, 8, 9] : List Nat).length / 8 = 1) ∧
    (([1, 2, 3, 4, 5, 6, 7, 8, 9] : List Nat).length % 8 ≠ 0) ∧
    (∃ s2, for_each [1, 2, 3, 4, 5, 6, 7, 8, 9] (0 : Nat)
        (fun s v => .ok ((fun (s : Nat) (_ : Nat) => (s + 1, true)) s v)) =
      .ok (s2, .ok (([1, 2, 3, 4, 5, 6, 7, 8, 9] : List Nat).length / 8))) ∧
    (∃ msg, count_bytes [1, 2, 3, 4, 5, 6, 7, 8, 9] 0 = .error msg) := by
  refine ⟨by decide, by decide, by decide, ?_, ?_⟩
  · exact (c10_for_each_ignores_trailing_bytes [1, 2, 3, 4, 5, 6, 7, 8, 9] (by decide)).1
      Nat 0 (fun s _ => (s + 1, true)) (fun _ _ => rfl)
  · exact (c10_for_each_ignores_trailing_bytes [1, 2, 3, 4, 5, 6, 7, 8, 9] (by decide)).2
      (by decide)

theorem foldlDelta_i32_count (upd : Decoder → Nat → Nat → Nat → Nat) :
    ∀ (l : List Nat) (d : Decoder),
      ((l.foldl (fun d i => { d with delta_sum := upd d i }) d)).i32_count = d.i32_count := by
  intro l
  induction l with
  | nil => intro d; rfl
  | cons a l ih => intro d; exact ih _

theorem foldlDelta_layers (upd : Decoder → Nat → Nat → Nat → Nat) :
    ∀ (l : List Nat) (d : Decoder),
      ((l.foldl (fun d i => { d with delta_sum := upd d i }) d)).delta_encoding_layers
        = d.delta_encoding_layers := by
  intro l
  induction l with
  | nil => intro d; rfl
  | cons a l ih => intro d; exact ih _

theorem zeroDeltaInner_delta (dj : Nat) : ∀ (M : Nat) (d : Decoder),
    ((List.range M).foldl (fun d i => { d with delta_sum := fun j2 i2 =>
        if j2 = dj ∧ i2 = i then 0 else d.delta_sum j2 i2 }) d).delta_sum
      = fun j2 i2 => if j2 = dj ∧ i2 < M then 0 else d.delta_sum j2 i2 := by
  intro M
  induction M with
  | zero => intro d; funext j2 i2; simp
  | succ M ih =>
    intro d
    rw [List.range_succ, List.foldl_append]
    simp only [List.foldl_cons, List.foldl_nil]
    funext j2 i2
    show (if j2 = dj ∧ i2 = M then 0
          else ((List.range M).foldl _ d).delta_sum j2 i2) = _
    rw [ih d]
    by_cases h1 : j2 = dj
    · by_cases h2 : i2 = M
      · simp [h1, h2]
      · by_cases h3 : i2 < M
        · simp [h1, h2, h3, Nat.lt_succ_of_lt h3]
        · have h4 : ¬ i2 < M + 1 := by omega
          simp [h1, h2, h3, h4]
    · simp [h1]

theorem zeroDeltaSum_spec : ∀ (d : Decoder),
    (Decoder.zeroDeltaSum d).i32_count = d.i32_count ∧
    (Decoder.zeroDeltaSum d).delta_encoding_layers = d.delta_encoding_layers ∧
    ∀ j i, j < d.delta_encoding_layers - 1 → i < d.i32_count →
      (Decoder.zeroDeltaSum d).delta_sum j i = 0 := by
  intro d
  unfold Decoder.zeroDeltaSum
  -- generalize the outer range
  suffices h : ∀ (n : Nat) (d : Decoder),
      ((List.range n).foldl (fun d j => (List.range d.i32_count).foldl
        (fun d i => { d with delta_sum := fun j2 i2 =>
          if j2 = j ∧ i2 = i then 0 else d.delta_sum j2 i2 }) d) d).i32_count = d.i32_count ∧
      ((List.range n).foldl (fun d j => (List.range d.i32_count).foldl
        (fun d i => { d with delta_sum := fun j2 i2 =>
          if j2 = j ∧ i2 = i then 0 else d.delta_sum j2 i2 }) d) d).delta_encoding_layers
        = d.delta_encoding_layers ∧
      ∀ j i, j < n → i < d.i32_count →
        ((List.range n).foldl (fun d j => (List.range d.i32_count).foldl
          (fun d i => { d with delta_sum := fun j2 i2 =>
            if j2 = j ∧ i2 = i then 0 else d.delta_sum j2 i2 }) d) d).delta_sum j i = 0 by
    obtain ⟨h1, h2, h3⟩ := h (d.delta_encoding_layers - 1) d
    exact ⟨h1, h2, fun j i hj hi => h3 j i hj hi⟩
  intro n
  induction n with
  | zero =>
    intro d
    refine ⟨rfl, rfl, ?_⟩
    intro j i hj
    omega
  | succ n ih =>
    intro d
    rw [List.range_succ, List.foldl_append]
    simp only [List.foldl_cons, List.foldl_nil]
    obtain ⟨ih1, ih2, ih3⟩ := ih d
    set G := (List.range n).foldl (fun d j => (List.range d.i32_count).foldl
      (fun d i => { d with delta_sum := fun j2 i2 =>
        if j2 = j ∧ i2 = i then 0 else d.delta_sum j2 i2 }) d) d with hG
    refine ⟨?_, ?_, ?_⟩
    · rw [foldlDelta_i32_count]
      exact ih1
    · rw [foldlDelta_layers]
      exact ih2
    · intro j i hj hi
      have hd := zeroDeltaInner_delta n G.i32_count G
      -- the one-more outer step is the inner fold at layer n over range G.i32_count
      rw [hd]
      rw [ih1]
      by_cases hcase : j = n ∧ i < d.i32_count
      · simp [hcase]
      · have hjn : j < n := by
          rcases Classical.em (j = n) with h | h
          · exfalso; exact hcase ⟨h, hi⟩
          · omega
        simp only [hcase, if_false]
        exact ih3 j i hjn hi

theorem deltaZero_zeroDeltaSum (d : Decoder) : deltaZero (Decoder.zeroDeltaSum d) := by
  intro j hj i hi
  obtain ⟨h1, h2, h3⟩ := zeroDeltaSum_spec d
  rw [h2] at hj
  rw [h1] at hi
  exact h3 j i hj hi

/-- **C5** (confirmed): the `delta_sum` accumulators are zero at the start
and at the end of every `decode_to_buffer` call on each return path,
`Ok` or `Err`.  A fresh decoder starts with `delta_sum` all zero; assuming
it zero at entry, the one `Err` return (an inflate failure) occurs before
any accumulator is touched, and every `Ok` return passes through the final
zeroing loops — so zero is re-established on all non-panicking paths.
(Panics, which abort the call without returning, are excluded by the
claim's own wording "whether Ok or Err".) -/
theorem c5_delta_sum_zero_on_every_return (gz : GzFn) (d : Decoder) (buf : List Nat)
    (h : deltaZero d) :
    ∀ d2 st, Decoder.decode_to_buffer gz d buf = (d2, st) →
      st = DStatus.ok ∨ (∃ m, st = DStatus.err m) → deltaZero d2 := by
  intro d2 st heq hst
  simp only [Decoder.decode_to_buffer] at heq
  repeat' split at heq
  all_goals injection heq with h1 h2
  all_goals subst h1
  all_goals subst h2
  all_goals
    first
      | (rcases hst with h1 | ⟨m, h1⟩ <;> exact DStatus.noConfusion h1)
      | exact h
      | exact deltaZero_zeroDeltaSum _

/-- Witness for C5: a fresh decoder has `delta_sum` zero, and after the
(successful) decode of `c1frame` it is zero again. -/
theorem c5_delta_sum_zero_witness :
    deltaZero (Decoder.new idA 1 4000 4) ∧
    deltaZero (Decoder.decode_to_buffer gzNone (Decoder.new idA 1 4000 4) c1frame).1 :=
  ⟨by unfold deltaZero; decide,
   c5_delta_sum_zero_on_every_return gzNone (Decoder.new idA 1 4000 4) c1frame
     (by unfold deltaZero; decide)
     (Decoder.decode_to_buffer gzNone (Decoder.new idA 1 4000 4) c1frame).1
     (Decoder.decode_to_buffer gzNone (Decoder.new idA 1 4000 4) c1frame).2
     rfl (Or.inl (by decide))⟩

theorem writeBytes_lt : ∀ (bs : List Nat) (buf : Nat → Nat) (pos p : Nat), p < pos →
    writeBytes buf pos bs p = buf p := by
  intro bs
  induction bs with
  | nil => intro buf pos p _; rfl
  | cons b rest ih =>
    intro buf pos p hp
    show writeBytes (fun q => if q = pos then b else buf q) (pos + 1) rest p = buf p
    rw [ih _ _ _ (by omega)]
    simp only [if_neg (by omega : ¬ p = pos)]

theorem writeBytes_at : ∀ (bs : List Nat) (buf : Nat → Nat) (pos p : Nat),
    pos ≤ p → p < pos + bs.length →
    writeBytes buf pos bs p = bs.getD (p - pos) 0 := by
  intro bs
  induction bs with
  | nil => intro buf pos p h1 h2; simp at h2; omega
  | cons b rest ih =>
    intro buf pos p h1 h2
    show writeBytes (fun q => if q = pos then b else buf q) (pos + 1) rest p = _
    by_cases hp : p = pos
    · subst hp
      rw [writeBytes_lt _ _ _ _ (by omega)]
      simp
    · have h1' : pos + 1 ≤ p := by omega
      have h2' : p < (pos + 1) + rest.length := by
        simp only [List.length_cons] at h2
        omega
      rw [ih _ _ _ h1' h2']
      have : p - pos = (p - (pos + 1)) + 1 := by omega
      rw [this]
      rfl

theorem beBytes_length : ∀ (w x : Nat), (beBytes w x).length = w := by
  intro w
  induction w with
  | zero => intro x; rfl
  | succ w ih => intro x; simp [beBytes, ih]

theorem buf_len_update (s : Encoder) (n : Nat) :
    Encoder.buf { s with len := n } = Encoder.buf s := rfl

theorem buf_setBuf (s : Encoder) (f : Nat → Nat) :
    Encoder.buf (Encoder.setBuf s f) = f := by
  by_cases h : s.use_buf_a <;> simp [Encoder.buf, Encoder.setBuf, h]

theorem setBuf_config (s : Encoder) (f : Nat → Nat) :
    SameConfig (Encoder.setBuf s f) s := by
  by_cases h : s.use_buf_a <;>
    simp [SameConfig, Encoder.setBuf, h]

theorem pushBytes_len (s : Encoder) (bs : List Nat) :
    (Encoder.pushBytes s bs).len = s.len + bs.length := by
  by_cases h : s.use_buf_a <;> simp [Encoder.pushBytes, Encoder.setBuf, h]

theorem buf_pushBytes (s : Encoder) (bs : List Nat) :
    Encoder.buf (Encoder.pushBytes s bs) = writeBytes (Encoder.buf s) s.len bs := by
  by_cases h : s.use_buf_a <;> simp [Encoder.pushBytes, Encoder.setBuf, Encoder.buf, h]

theorem pushBytes_config (s : Encoder) (bs : List Nat) :
    SameConfig (Encoder.pushBytes s bs) s := by
  by_cases h : s.use_buf_a <;> simp [SameConfig, Encoder.pushBytes, Encoder.setBuf, h]

theorem pushBytes_encoded_samples (s : Encoder) (bs : List Nat) :
    (Encoder.pushBytes s bs).encoded_samples = s.encoded_samples := by
  by_cases h : s.use_buf_a <;> simp [Encoder.pushBytes, Encoder.setBuf, h]

theorem pushBytes_quality_history (s : Encoder) (bs : List Nat) :
    (Encoder.pushBytes s bs).quality_history = s.quality_history := by
  by_cases h : s.use_buf_a <;> simp [Encoder.pushBytes, Encoder.setBuf, h]

theorem pushBytes_prev_data (s : Encoder) (bs : List Nat) :
    (Encoder.pushBytes s bs).prev_data = s.prev_data := by
  by_cases h : s.use_buf_a <;> simp [Encoder.pushBytes, Encoder.setBuf, h]

theorem pushBytes_diffs (s : Encoder) (bs : List Nat) :
    (Encoder.pushBytes s bs).diffs = s.diffs := by
  by_cases h : s.use_buf_a <;> simp [Encoder.pushBytes, Encoder.setBuf, h]

theorem pushBytes_values (s : Encoder) (bs : List Nat) :
    (Encoder.pushBytes s bs).values = s.values := by
  by_cases h : s.use_buf_a <;> simp [Encoder.pushBytes, Encoder.setBuf, h]

theorem SameConfig.trans {a b c : Encoder} (h1 : SameConfig a b) (h2 : SameConfig b c) :
    SameConfig a c := by
  obtain ⟨a1, a2, a3, a4, a5, a6, a7, a8⟩ := h1
  obtain ⟨b1, b2, b3, b4, b5, b6, b7, b8⟩ := h2
  exact ⟨a1.trans b1, a2.trans b2, a3.trans b3, a4.trans b4, a5.trans b5,
    a6.trans b6, a7.trans b7, a8.trans b8⟩

theorem SameConfig.refl (a : Encoder) : SameConfig a a :=
  ⟨rfl, rfl, rfl, rfl, rfl, rfl, rfl, rfl⟩

theorem SameConfig.symm {a b : Encoder} (h : SameConfig a b) : SameConfig b a := by
  obtain ⟨a1, a2, a3, a4, a5, a6, a7, a8⟩ := h
  exact ⟨a1.symm, a2.symm, a3.symm, a4.symm, a5.symm, a6.symm, a7.symm, a8.symm⟩

theorem pushBytes_agree (a b : Encoder) (bs : List Nat)
    (hlen : a.len = b.len)
    (hbuf : ∀ p, p < a.len → Encoder.buf a p = Encoder.buf b p) :
    ∀ p, p < (Encoder.pushBytes a bs).len →
      Encoder.buf (Encoder.pushBytes a bs) p = Encoder.buf (Encoder.pushBytes b bs) p := by
  intro p hp
  rw [pushBytes_len] at hp
  rw [buf_pushBytes, buf_pushBytes, ← hlen]
  by_cases h1 : p < a.len
  · rw [writeBytes_lt _ _ _ _ h1, writeBytes_lt _ _ _ _ h1]
    exact hbuf p h1
  · have h2 : a.len ≤ p := by omega
    rw [writeBytes_at _ _ _ _ h2 (by omega), writeBytes_at _ _ _ _ h2 (by omega)]

theorem encodeVar_prev_proj (useS8b useXor : Bool) (L : Nat) (sref : Nat → Option Nat)
    (data : DatasetWithQuality) (j : Nat) (x : Encoder.Staging) (t k i2 : Nat) :
    (Encoder.encodeVar useS8b useXor L sref data j x t).prev k i2 =
      if i2 = t then
        (if k = 0 then Encoder.encVal sref data t
         else if 1 ≤ k ∧ k ≤ min j (L - 1) then
           Encoder.delta_n (combineI32 useXor) x.prev t (Encoder.encVal sref data t) (k - 1)
         else x.prev k i2)
      else x.prev k i2 := by
  cases useS8b <;> rfl

theorem encodeVar_diffs_proj (useXor : Bool) (L : Nat) (sref : Nat → Option Nat)
    (data : DatasetWithQuality) (j : Nat) (x : Encoder.Staging) (t i2 j2 : Nat) :
    (Encoder.encodeVar true useXor L sref data j x t).diffs i2 j2 =
      if i2 = t ∧ j2 = j then
        zig_zag_encode64 (sext32to64 (if j = 0 then Encoder.encVal sref data t
          else Encoder.delta_n (combineI32 useXor) x.prev t (Encoder.encVal sref data t)
            (min (j - 1) (L - 1))))
      else x.diffs i2 j2 := rfl

theorem encodeVar_diffs_proj_false (useXor : Bool) (L : Nat) (sref : Nat → Option Nat)
    (data : DatasetWithQuality) (j : Nat) (x : Encoder.Staging) (t : Nat) :
    (Encoder.encodeVar false useXor L sref data j x t).diffs = x.diffs := rfl

theorem encodeVar_values_proj (useXor : Bool) (L : Nat) (sref : Nat → Option Nat)
    (data : DatasetWithQuality) (j : Nat) (x : Encoder.Staging) (t j2 i2 : Nat) :
    (Encoder.encodeVar false useXor L sref data j x t).values j2 i2 =
      if j2 = j ∧ i2 = t then
        (if j = 0 then Encoder.encVal sref data t
         else Encoder.delta_n (combineI32 useXor) x.prev t (Encoder.encVal sref data t)
           (min (j - 1) (L - 1)))
      else x.values j2 i2 := rfl

theorem encodeVar_values_proj_true (useXor : Bool) (L : Nat) (sref : Nat → Option Nat)
    (data : DatasetWithQuality) (j : Nat) (x : Encoder.Staging) (t : Nat) :
    (Encoder.encodeVar true useXor L sref data j x t).values = x.values := rfl

theorem delta_n_congr (cmb : Nat → Nat → Nat) (px py : Nat → Nat → Nat) (i val : Nat) :
    ∀ r, (∀ kk, kk ≤ r → px kk i = py kk i) →
      Encoder.delta_n cmb px i val r = Encoder.delta_n cmb py i val r := by
  intro r
  induction r with
  | zero =>
    intro h
    simp only [Encoder.delta_n]
    rw [h 0 (Nat.le_refl 0)]
  | succ r ih =>
    intro h
    simp only [Encoder.delta_n]
    rw [h (r + 1) (Nat.le_refl _), ih (fun kk hk => h kk (Nat.le_trans hk (Nat.le_succ r)))]

theorem encodeVar_congr (useS8b useXor : Bool) (L : Nat) (sref : Nat → Option Nat)
    (data : DatasetWithQuality) (j m t : Nat) (hL : 1 ≤ L) (ht : t < m)
    (x y : Encoder.Staging) (h : StgEquiv useS8b L m j t x y) :
    StgEquiv useS8b L m j (t + 1)
      (Encoder.encodeVar useS8b useXor L sref data j x t)
      (Encoder.encodeVar useS8b useXor L sref data j y t) := by
  have hprevt : ∀ kk, kk < min j L → x.prev kk t = y.prev kk t :=
    fun kk hk => h.prevOld t (Nat.le_refl t) ht kk hk
  have hdn : ∀ r, r + 1 ≤ min j L →
      Encoder.delta_n (combineI32 useXor) x.prev t (Encoder.encVal sref data t) r
        = Encoder.delta_n (combineI32 useXor) y.prev t (Encoder.encVal sref data t) r := by
    intro r hr
    exact delta_n_congr _ _ _ _ _ r (fun kk hk => hprevt kk (by omega))
  have hresid :
      (if j = 0 then Encoder.encVal sref data t
       else Encoder.delta_n (combineI32 useXor) x.prev t (Encoder.encVal sref data t)
         (min (j - 1) (L - 1))) =
      (if j = 0 then Encoder.encVal sref data t
       else Encoder.delta_n (combineI32 useXor) y.prev t (Encoder.encVal sref data t)
         (min (j - 1) (L - 1))) := by
    by_cases hj : j = 0
    · simp [hj]
    · simp only [if_neg hj]
      exact hdn _ (by omega)
  constructor
  case prevNew =>
    intro i hi kk hkk
    rw [encodeVar_prev_proj, encodeVar_prev_proj]
    by_cases hit : i = t
    · subst hit
      simp only [if_pos rfl]
      by_cases hk0 : kk = 0
      · simp [hk0]
      · have hk1 : 1 ≤ kk ∧ kk ≤ min j (L - 1) := by
          constructor
          · omega
          · omega
        simp only [if_neg hk0, if_pos hk1]
        exact hdn (kk - 1) (by omega)
    · simp only [if_neg hit]
      exact h.prevNew i (by omega) kk hkk
  case prevOld =>
    intro i hti hi kk hkk
    rw [encodeVar_prev_proj, encodeVar_prev_proj]
    have hit : ¬ i = t := by omega
    simp only [if_neg hit]
    exact h.prevOld i (by omega) hi kk hkk
  case diffsNew =>
    intro hs8 i hi
    subst hs8
    rw [encodeVar_diffs_proj, encodeVar_diffs_proj, hresid]
    by_cases hit : i = t
    · simp [hit]
    · have hx := h.diffsNew rfl i (by omega : i < t)
      simp [hit, hx]
  case diffsOld =>
    intro hs8 i hi jj hjj
    subst hs8
    rw [encodeVar_diffs_proj, encodeVar_diffs_proj]
    simp only [if_neg (by omega : ¬ (i = t ∧ jj = j))]
    exact h.diffsOld rfl i hi jj hjj
  case valsNew =>
    intro hs8 i hi
    subst hs8
    rw [encodeVar_values_proj, encodeVar_values_proj, hresid]
    by_cases hit : i = t
    · simp [hit]
    · have hx := h.valsNew rfl i (by omega : i < t)
      simp [hit, hx]
  case valsOld =>
    intro hs8 jj hjj i hi
    subst hs8
    rw [encodeVar_values_proj, encodeVar_values_proj]
    simp only [if_neg (by omega : ¬ (jj = j ∧ i = t))]
    exact h.valsOld rfl jj hjj i hi

theorem encodeVars_congr (useS8b useXor : Bool) (L : Nat) (sref : Nat → Option Nat)
    (data : DatasetWithQuality) (j m : Nat) (hL : 1 ≤ L) :
    ∀ (fuel t : Nat), t + fuel = m → ∀ x y, StgEquiv useS8b L m j t x y →
      StgEquiv useS8b L m j m
        (Encoder.encodeVars useS8b useXor L sref data j fuel t x)
        (Encoder.encodeVars useS8b useXor L sref data j fuel t y) := by
  intro fuel
  induction fuel with
  | zero =>
    intro t hm x y h
    have : t = m := by omega
    subst this
    exact h
  | succ fuel ih =>
    intro t hm x y h
    simp only [Encoder.encodeVars]
    exact ih (t + 1) (by omega) _ _ (encodeVar_congr useS8b useXor L sref data j m t hL (by omega) x y h)

theorem get_delta_encoding_pos (r : Nat) : 1 ≤ get_delta_encoding r := by
  unfold get_delta_encoding
  split <;> decide

theorem writeBytes_agree (f g : Nat → Nat) (pos : Nat) (bs : List Nat)
    (h : ∀ p, p < pos → f p = g p) :
    ∀ p, p < pos + bs.length → writeBytes f pos bs p = writeBytes g pos bs p := by
  intro p hp
  by_cases h1 : p < pos
  · rw [writeBytes_lt _ _ _ _ h1, writeBytes_lt _ _ _ _ h1]
    exact h p h1
  · rw [writeBytes_at _ _ _ _ (by omega) hp, writeBytes_at _ _ _ _ (by omega) hp]

theorem flatMap_congr_left {α β : Type} (l : List α) (f g : α → List β)
    (h : ∀ x ∈ l, f x = g x) : l.flatMap f = l.flatMap g := by
  induction l with
  | nil => rfl
  | cons x xs ih =>
    simp only [List.flatMap_cons]
    rw [h x (List.mem_cons_self x xs), ih (fun y hy => h y (List.mem_cons_of_mem x hy))]

theorem setBuf_quality_history (s : Encoder) (f : Nat → Nat) :
    (Encoder.setBuf s f).quality_history = s.quality_history := by
  by_cases h : s.use_buf_a <;> simp [Encoder.setBuf, h]

theorem setBuf_encoded_samples (s : Encoder) (f : Nat → Nat) :
    (Encoder.setBuf s f).encoded_samples = s.encoded_samples := by
  by_cases h : s.use_buf_a <;> simp [Encoder.setBuf, h]

theorem pushBytes_using_simple8b (s : Encoder) (bs : List Nat) :
    (Encoder.pushBytes s bs).using_simple8b = s.using_simple8b := by
  by_cases h : s.use_buf_a <;> simp [Encoder.pushBytes, Encoder.setBuf, h]

theorem pushBytes_i32_count (s : Encoder) (bs : List Nat) :
    (Encoder.pushBytes s bs).i32_count = s.i32_count := by
  by_cases h : s.use_buf_a <;> simp [Encoder.pushBytes, Encoder.setBuf, h]

theorem pushBytes_samples_per_message (s : Encoder) (bs : List Nat) :
    (Encoder.pushBytes s bs).samples_per_message = s.samples_per_message := by
  by_cases h : s.use_buf_a <;> simp [Encoder.pushBytes, Encoder.setBuf, h]

theorem buf_qhset (s : Encoder) (q : Nat → List (Nat × Nat)) :
    Encoder.buf { s with quality_history := q } = Encoder.buf s := rfl

theorem qhset_config (s : Encoder) (q : Nat → List (Nat × Nat)) :
    SameConfig { s with quality_history := q } s :=
  ⟨rfl, rfl, rfl, rfl, rfl, rfl, rfl, rfl⟩

theorem lenset_config (s : Encoder) (n : Nat) :
    SameConfig { s with len := n } s :=
  ⟨rfl, rfl, rfl, rfl, rfl, rfl, rfl, rfl⟩

theorem simple8bPayload_congr (m actual : Nat) (da db : Nat → Nat → Nat)
    (h : ∀ i, i < m → ∀ jj, jj < actual → da i jj = db i jj) :
    Encoder.simple8bPayload m actual da = Encoder.simple8bPayload m actual db := by
  unfold Encoder.simple8bPayload
  apply flatMap_congr_left
  intro i hi
  rw [List.mem_range] at hi
  rw [show (List.range actual).map (da i) = (List.range actual).map (db i) from
    List.map_congr_left (fun jj hjj => h i hi jj (List.mem_range.mp hjj))]

theorem varintPayload_congr (cnt m : Nat) (va vb : Nat → Nat → Nat)
    (h : ∀ i, i < cnt → ∀ j, j < m → va i j = vb i j) :
    Encoder.varintPayload cnt m va = Encoder.varintPayload cnt m vb := by
  unfold Encoder.varintPayload
  apply flatMap_congr_left
  intro i hi
  rw [List.mem_range] at hi
  apply flatMap_congr_left
  intro j hj
  rw [List.mem_range] at hj
  rw [h i hi j hj]

theorem endEncodeGo_snd (gz : GzFn) (s : Encoder) :
    (Encoder.endEncodeGo gz s).2 = endFrame gz s := by
  by_cases h : s.use_buf_a <;>
    simp [Encoder.endEncodeGo, endFrame, endFrameCore, Encoder.bufList, Encoder.pushBytes,
      Encoder.setBuf, Encoder.buf, h]

theorem endEncodeGo_config (gz : GzFn) (s : Encoder) :
    SameConfig (Encoder.endEncodeGo gz s).1 s := by
  by_cases h : s.use_buf_a <;>
    simp [Encoder.endEncodeGo, Encoder.pushBytes, Encoder.setBuf, SameConfig, h]

theorem endEncodeGo_encoded_samples (gz : GzFn) (s : Encoder) :
    (Encoder.endEncodeGo gz s).1.encoded_samples = 0 := rfl

theorem endEncodeGo_len (gz : GzFn) (s : Encoder) :
    (Encoder.endEncodeGo gz s).1.len = 0 := rfl

theorem endEncodeGo_qh (gz : GzFn) (s : Encoder) :
    (Encoder.endEncodeGo gz s).1.quality_history = fun _ => [(0, 0)] := rfl

theorem endFrameCore_buf_congr (gz : GzFn) (e len : Nat) (f g : Nat → Nat)
    (v pay : List Nat) (h : ∀ p, p < len → f p = g p) :
    endFrameCore gz e len f v pay = endFrameCore gz e len g v pay := by
  have hfull : ∀ p, p < len + v.length + pay.length →
      writeBytes (writeBytes f len v) (len + v.length) pay p =
      writeBytes (writeBytes g len v) (len + v.length) pay p := by
    intro p hp
    exact writeBytes_agree _ _ _ pay (writeBytes_agree f g len v h) p (by omega)
  unfold endFrameCore
  by_cases hgt : e > USE_GZIP_THRESHOLD_SAMPLES
  · rw [if_pos hgt, if_pos hgt]
    rw [show (List.range (len + v.length + pay.length - (len + v.length))).map
          (fun p => writeBytes (writeBytes f len v) (len + v.length) pay (len + v.length + p)) =
        (List.range (len + v.length + pay.length - (len + v.length))).map
          (fun p => writeBytes (writeBytes g len v) (len + v.length) pay (len + v.length + p)) from
      List.map_congr_left (fun p hp =>
        hfull (len + v.length + p) (by have := List.mem_range.mp hp; omega))]
    rw [show (List.range (len + v.length)).map
          (writeBytes (writeBytes f len v) (len + v.length) pay) =
        (List.range (len + v.length)).map
          (writeBytes (writeBytes g len v) (len + v.length) pay) from
      List.map_congr_left (fun p hp =>
        hfull p (by have := List.mem_range.mp hp; omega))]
  · rw [if_neg hgt, if_neg hgt]
    exact List.map_congr_left (fun p hp => hfull p (List.mem_range.mp hp))

theorem endFrame_congr (gz : GzFn) (k : Nat) (a b : Encoder) (h : EncEquiv k a b) :
    endFrame gz a = endFrame gz b := by
  obtain ⟨hcid, hcrate, hcN, hcM, hcs8, hcL, hcxor, hcsref⟩ := h.hcfg
  simp only [endFrame]
  rw [h.henc, h.hencB, ← h.hlen, ← hcs8, ← hcM, ← hcN, ← h.hqh]
  by_cases hs8b : a.using_simple8b = true
  · rw [if_pos hs8b, if_pos hs8b]
    rw [show Encoder.simple8bPayload a.i32_count (min k a.samples_per_message) a.diffs =
        Encoder.simple8bPayload a.i32_count (min k a.samples_per_message) b.diffs from
      simple8bPayload_congr _ _ _ _ (fun i hi jj hjj => h.hdiffs hs8b i hi jj (by omega))]
    exact endFrameCore_buf_congr _ _ _ _ _ _ _ h.hbuf
  · have hs8f : a.using_simple8b = false := by
      cases hb : a.using_simple8b with
      | false => rfl
      | true => exact absurd hb hs8b
    rw [if_neg hs8b, if_neg hs8b]
    rw [show Encoder.varintPayload k a.i32_count a.values = Encoder.varintPayload k a.i32_count b.values from
      varintPayload_congr _ _ _ _ (fun jj hjj i hi => h.hvals hs8f jj hjj i hi)]
    exact endFrameCore_buf_congr _ _ _ _ _ _ _ h.hbuf

theorem endEncodeGo_congr (gz : GzFn) (k : Nat) (a b : Encoder) (h : EncEquiv k a b) :
    (Encoder.endEncodeGo gz a).2 = (Encoder.endEncodeGo gz b).2 ∧
    EncEquiv 0 (Encoder.endEncodeGo gz a).1 (Encoder.endEncodeGo gz b).1 := by
  constructor
  · rw [endEncodeGo_snd, endEncodeGo_snd]
    exact endFrame_congr gz k a b h
  · refine ⟨?_, ?_, ?_, ?_, ?_, ?_, ?_, ?_, ?_⟩
    · exact (endEncodeGo_config gz a).trans (h.hcfg.trans (endEncodeGo_config gz b).symm)
    · exact endEncodeGo_encoded_samples gz a
    · exact endEncodeGo_encoded_samples gz b
    · rw [endEncodeGo_len, endEncodeGo_len]
    · intro p hp
      rw [endEncodeGo_len] at hp
      exact absurd hp (by omega)
    · rw [endEncodeGo_qh, endEncodeGo_qh]
    · intro kk hkk
      exact absurd hkk (by omega)
    · intro hs8 i hi jj hjj
      exact absurd hjj (by omega)
    · intro hs8 jj hjj
      exact absurd hjj (by omega)

theorem headerPhase_config (s : Encoder) (d : DatasetWithQuality) :
    SameConfig (Encoder.headerPhase s d) s := by
  by_cases h : s.encoded_samples = 0 <;> by_cases h2 : s.use_buf_a <;>
    simp [Encoder.headerPhase, Encoder.pushBytes, Encoder.setBuf, SameConfig, h, h2]

theorem headerPhase_congr (k : Nat) (a b : Encoder) (d : DatasetWithQuality)
    (hid : a.id.length = 16) (h : EncEquiv k a b) :
    EncEquiv k (Encoder.headerPhase a d) (Encoder.headerPhase b d) := by
  obtain ⟨hcid, hcrate, hcN, hcM, hcs8, hcL, hcxor, hcsref⟩ := h.hcfg
  have hidb : b.id.length = 16 := by rw [← hcid]; exact hid
  by_cases hk : k = 0
  · subst hk
    have hA0 : a.encoded_samples = 0 := h.henc
    have hB0 : b.encoded_samples = 0 := h.hencB
    unfold Encoder.headerPhase
    rw [if_pos hA0, if_pos hB0]
    refine ⟨?_, ?_, ?_, ?_, ?_, ?_, ?_, ?_, ?_⟩
    · have hab : SameConfig a b := ⟨hcid, hcrate, hcN, hcM, hcs8, hcL, hcxor, hcsref⟩
      exact SameConfig.trans
        (SameConfig.trans (qhset_config _ _) (SameConfig.trans (pushBytes_config _ _)
          (SameConfig.trans (lenset_config _ _) (setBuf_config _ _))))
        (SameConfig.trans hab (SameConfig.symm
          (SameConfig.trans (qhset_config _ _) (SameConfig.trans (pushBytes_config _ _)
            (SameConfig.trans (lenset_config _ _) (setBuf_config _ _))))))
    · simp only [pushBytes_encoded_samples, setBuf_encoded_samples]
      exact hA0
    · simp only [pushBytes_encoded_samples, setBuf_encoded_samples]
      exact hB0
    · simp only [pushBytes_len, beBytes_length]
    · intro p hp
      simp only [pushBytes_len, beBytes_length] at hp
      simp only [buf_qhset]
      simp only [buf_pushBytes]
      simp only [buf_len_update, buf_setBuf, pushBytes_len, beBytes_length]
      by_cases hp16 : p < 16
      · rw [writeBytes_lt _ _ _ _ hp16, writeBytes_lt _ _ _ _ hp16]
        rw [writeBytes_at _ _ _ _ (Nat.zero_le p) (by omega),
          writeBytes_at _ _ _ _ (Nat.zero_le p) (by omega)]
        rw [hcid]
      · rw [writeBytes_at _ _ _ _ (by omega) (by rw [beBytes_length]; omega),
          writeBytes_at _ _ _ _ (by omega) (by rw [beBytes_length]; omega)]
    · simp only [pushBytes_quality_history, setBuf_quality_history]
      rw [h.hqh]
    · intro kk hkk
      exact absurd hkk (by omega)
    · intro hs8 i hi jj hjj
      exact absurd hjj (by omega)
    · intro hs8 jj hjj
      exact absurd hjj (by omega)
  · have hA0 : ¬ a.encoded_samples = 0 := by have := h.henc; omega
    have hB0 : ¬ b.encoded_samples = 0 := by have := h.hencB; omega
    unfold Encoder.headerPhase
    rw [if_neg hA0, if_neg hB0]
    refine ⟨?_, ?_, ?_, ?_, ?_, ?_, ?_, ?_, ?_⟩
    · exact ⟨hcid, hcrate, hcN, hcM, hcs8, hcL, hcxor, hcsref⟩
    · exact h.henc
    · exact h.hencB
    · exact h.hlen
    · exact fun p hp => h.hbuf p hp
    · rw [h.hqh]
    · exact fun kk hkk i hi => h.hprev kk hkk i hi
    · exact fun hs8 i hi jj hjj => h.hdiffs hs8 i hi jj hjj
    · exact fun hs8 jj hjj i hi => h.hvals hs8 jj hjj i hi

theorem stagePhase_config (s : Encoder) (d : DatasetWithQuality) :
    SameConfig (Encoder.stagePhase s d) s :=
  ⟨rfl, rfl, rfl, rfl, rfl, rfl, rfl, rfl⟩

theorem stagePhase_congr (k : Nat) (a b : Encoder) (d : DatasetWithQuality)
    (hL : 1 ≤ a.delta_encoding_layers) (hm : d.i32s.length = a.i32_count)
    (h : EncEquiv k a b) :
    EncEquiv (k + 1) (Encoder.stagePhase a d) (Encoder.stagePhase b d) := by
  obtain ⟨hcid, hcrate, hcN, hcM, hcs8, hcL, hcxor, hcsref⟩ := h.hcfg
  have h0 : StgEquiv a.using_simple8b a.delta_encoding_layers a.i32_count k 0
      ⟨a.prev_data, a.diffs, a.values⟩ ⟨b.prev_data, b.diffs, b.values⟩ := by
    refine ⟨?_, ?_, ?_, ?_, ?_, ?_⟩
    · intro i hi
      exact absurd hi (by omega)
    · intro i _ hi kk hkk
      exact h.hprev kk hkk i hi
    · intro hs8 i hi
      exact absurd hi (by omega)
    · intro hs8 i hi jj hjj
      exact h.hdiffs hs8 i hi jj hjj
    · intro hs8 i hi
      exact absurd hi (by omega)
    · intro hs8 jj hjj i hi
      exact h.hvals hs8 jj hjj i hi
  have hstg := encodeVars_congr a.using_simple8b a.use_xor a.delta_encoding_layers
    a.spatial_ref d k a.i32_count hL d.i32s.length 0 (by omega)
    ⟨a.prev_data, a.diffs, a.values⟩ ⟨b.prev_data, b.diffs, b.values⟩ h0
  have hA1 : (Encoder.stagePhase a d).prev_data =
      (Encoder.encodeVars a.using_simple8b a.use_xor a.delta_encoding_layers a.spatial_ref
        d k d.i32s.length 0 ⟨a.prev_data, a.diffs, a.values⟩).prev := by
    simp only [← h.henc]
    rfl
  have hB1 : (Encoder.stagePhase b d).prev_data =
      (Encoder.encodeVars a.using_simple8b a.use_xor a.delta_encoding_layers a.spatial_ref
        d k d.i32s.length 0 ⟨b.prev_data, b.diffs, b.values⟩).prev := by
    simp only [hcs8, hcxor, hcL, hcsref, ← h.hencB]
    rfl
  have hA2 : (Encoder.stagePhase a d).diffs =
      (Encoder.encodeVars a.using_simple8b a.use_xor a.delta_encoding_layers a.spatial_ref
        d k d.i32s.length 0 ⟨a.prev_data, a.diffs, a.values⟩).diffs := by
    simp only [← h.henc]
    rfl
  have hB2 : (Encoder.stagePhase b d).diffs =
      (Encoder.encodeVars a.using_simple8b a.use_xor a.delta_encoding_layers a.spatial_ref
        d k d.i32s.length 0 ⟨b.prev_data, b.diffs, b.values⟩).diffs := by
    simp only [hcs8, hcxor, hcL, hcsref, ← h.hencB]
    rfl
  have hA3 : (Encoder.stagePhase a d).values =
      (Encoder.encodeVars a.using_simple8b a.use_xor a.delta_encoding_layers a.spatial_ref
        d k d.i32s.length 0 ⟨a.prev_data, a.diffs, a.values⟩).values := by
    simp only [← h.henc]
    rfl
  have hB3 : (Encoder.stagePhase b d).values =
      (Encoder.encodeVars a.using_simple8b a.use_xor a.delta_encoding_layers a.spatial_ref
        d k d.i32s.length 0 ⟨b.prev_data, b.diffs, b.values⟩).values := by
    simp only [hcs8, hcxor, hcL, hcsref, ← h.hencB]
    rfl
  refine ⟨?_, ?_, ?_, ?_, ?_, ?_, ?_, ?_, ?_⟩
  · have hab : SameConfig a b := ⟨hcid, hcrate, hcN, hcM, hcs8, hcL, hcxor, hcsref⟩
    exact SameConfig.trans (stagePhase_config a d)
      (SameConfig.trans hab (SameConfig.symm (stagePhase_config b d)))
  · show a.encoded_samples + 1 = k + 1
    have := h.henc
    omega
  · show b.encoded_samples + 1 = k + 1
    have := h.hencB
    omega
  · exact h.hlen
  · exact fun p hp => h.hbuf p hp
  · exact h.hqh
  · intro kk hkk i hi
    rw [hA1, hB1]
    exact hstg.prevNew i hi kk hkk
  · intro hs8 i hi jj hjj
    rw [hA2, hB2]
    by_cases hj : jj = k
    · subst hj
      exact hstg.diffsNew hs8 i hi
    · exact hstg.diffsOld hs8 i hi jj (by omega)
  · intro hs8 jj hjj i hi
    rw [hA3, hB3]
    by_cases hj : jj = k
    · subst hj
      exact hstg.valsNew hs8 i hi
    · exact hstg.valsOld hs8 jj (by omega) i hi

theorem encode_config (gz : GzFn) (s : Encoder) (d : DatasetWithQuality) :
    SameConfig (Encoder.encode gz s d).1 s := by
  simp only [Encoder.encode]
  by_cases hc : (Encoder.stagePhase (Encoder.headerPhase s d) d).encoded_samples ≥
      (Encoder.stagePhase (Encoder.headerPhase s d) d).samples_per_message
  · rw [if_pos hc]
    exact (endEncodeGo_config _ _).trans
      ((stagePhase_config _ _).trans (headerPhase_config _ _))
  · rw [if_neg hc]
    exact (stagePhase_config _ _).trans (headerPhase_config _ _)

theorem encode_congr (gz : GzFn) (k : Nat) (a b : Encoder) (d : DatasetWithQuality)
    (hid : a.id.length = 16) (hL : 1 ≤ a.delta_encoding_layers)
    (hm : d.i32s.length = a.i32_count) (h : EncEquiv k a b) :
    (Encoder.encode gz a d).2 = (Encoder.encode gz b d).2 ∧
    ∃ k2, EncEquiv k2 (Encoder.encode gz a d).1 (Encoder.encode gz b d).1 := by
  have h1 := headerPhase_congr k a b d hid h
  have hL1 : 1 ≤ (Encoder.headerPhase a d).delta_encoding_layers := by
    have := (headerPhase_config a d).2.2.2.2.2.1
    omega
  have hm1 : d.i32s.length = (Encoder.headerPhase a d).i32_count := by
    have := (headerPhase_config a d).2.2.2.1
    omega
  have h2 := stagePhase_congr k _ _ d hL1 hm1 h1
  have hA : (Encoder.stagePhase (Encoder.headerPhase a d) d).encoded_samples = k + 1 := h2.henc
  have hB : (Encoder.stagePhase (Encoder.headerPhase b d) d).encoded_samples = k + 1 := h2.hencB
  have hN : (Encoder.stagePhase (Encoder.headerPhase a d) d).samples_per_message =
      (Encoder.stagePhase (Encoder.headerPhase b d) d).samples_per_message := h2.hcfg.2.2.1
  simp only [Encoder.encode]
  by_cases hc : k + 1 ≥ (Encoder.stagePhase (Encoder.headerPhase a d) d).samples_per_message
  · have hcA : (Encoder.stagePhase (Encoder.headerPhase a d) d).encoded_samples ≥
        (Encoder.stagePhase (Encoder.headerPhase a d) d).samples_per_message := by omega
    have hcB : (Encoder.stagePhase (Encoder.headerPhase b d) d).encoded_samples ≥
        (Encoder.stagePhase (Encoder.headerPhase b d) d).samples_per_message := by omega
    rw [if_pos hcA, if_pos hcB]
    obtain ⟨hf, he⟩ := endEncodeGo_congr gz (k + 1) _ _ h2
    exact ⟨hf, 0, he⟩
  · have hcA : ¬ ((Encoder.stagePhase (Encoder.headerPhase a d) d).encoded_samples ≥
        (Encoder.stagePhase (Encoder.headerPhase a d) d).samples_per_message) := by omega
    have hcB : ¬ ((Encoder.stagePhase (Encoder.headerPhase b d) d).encoded_samples ≥
        (Encoder.stagePhase (Encoder.headerPhase b d) d).samples_per_message) := by omega
    rw [if_neg hcA, if_neg hcB]
    exact ⟨rfl, k + 1, h2⟩

theorem encodeRun_congr (gz : GzFn) :
    ∀ (samples : List DatasetWithQuality) (k : Nat) (a b : Encoder),
      EncEquiv k a b → a.id.length = 16 → 1 ≤ a.delta_encoding_layers →
      WfSamples a.i32_count samples →
      (encodeRun gz a samples).2 = (encodeRun gz b samples).2 := by
  intro samples
  induction samples with
  | nil =>
    intro k a b h hid hL hsam
    rfl
  | cons sp rest ih =>
    intro k a b h hid hL hsam
    have hm : sp.i32s.length = a.i32_count := (hsam sp (List.mem_cons_self sp rest)).1
    obtain ⟨hout, k2, h2⟩ := encode_congr gz k a b sp hid hL hm h
    have hcfg := encode_config gz a sp
    have hid2 : (Encoder.encode gz a sp).1.id.length = 16 := by
      rw [hcfg.1]
      exact hid
    have hL2 : 1 ≤ (Encoder.encode gz a sp).1.delta_encoding_layers := by
      have := hcfg.2.2.2.2.2.1
      omega
    have hsam2 : WfSamples (Encoder.encode gz a sp).1.i32_count rest := by
      have hM := hcfg.2.2.2.1
      intro q hq
      rw [hM]
      exact hsam q (List.mem_cons_of_mem sp hq)
    have htail := ih k2 (Encoder.encode gz a sp).1 (Encoder.encode gz b sp).1 h2 hid2 hL2 hsam2
    simp only [encodeRun]
    rw [hout, htail]

/-- **C9** (confirmed): after `end_encode` or `cancel_encode` the encoder's
observable behaviour — the byte list of every frame returned by subsequent
`encode` calls — is identical to that of a freshly constructed encoder
with the same configuration fed the same samples, even though `prev_data`,
`diffs` and `values` are not cleared.  Hypotheses: the state's derived
configuration fields are the ones `new` establishes (true of every
reachable state), the id is 16 bytes, and each sample-set carries
`i32_count` variables. -/
theorem c9_reset_behaves_like_fresh (gz : GzFn) (s : Encoder)
    (samples : List DatasetWithQuality)
    (hwf : WfEncoder s) (hid : s.id.length = 16)
    (hsam : WfSamples s.i32_count samples) :
    (encodeRun gz (Encoder.end_encode gz s).1 samples).2 =
      (encodeRun gz (freshLike s) samples).2 ∧
    (encodeRun gz (Encoder.cancel_encode s) samples).2 =
      (encodeRun gz (freshLike s) samples).2 := by
  obtain ⟨hw1, hw2⟩ := hwf
  have hL : 1 ≤ s.delta_encoding_layers := by
    rw [hw2]
    exact get_delta_encoding_pos s.sampling_rate
  have hfreshCfg : SameConfig s (freshLike s) := ⟨rfl, rfl, rfl, rfl, hw1, hw2, rfl, rfl⟩
  constructor
  · have hEE : Encoder.end_encode gz s = Encoder.endEncodeGo gz s := rfl
    rw [hEE]
    have hE : EncEquiv 0 (Encoder.endEncodeGo gz s).1 (freshLike s) := by
      refine ⟨?_, ?_, ?_, ?_, ?_, ?_, ?_, ?_, ?_⟩
      · exact SameConfig.trans (endEncodeGo_config gz s) hfreshCfg
      · exact endEncodeGo_encoded_samples gz s
      · rfl
      · rw [endEncodeGo_len]
        rfl
      · intro p hp
        rw [endEncodeGo_len] at hp
        exact absurd hp (by omega)
      · rw [endEncodeGo_qh]
        rfl
      · intro kk hkk
        exact absurd hkk (by omega)
      · intro hs8 i hi jj hjj
        exact absurd hjj (by omega)
      · intro hs8 jj hjj
        exact absurd hjj (by omega)
    have hcfgE := endEncodeGo_config gz s
    apply encodeRun_congr gz samples 0 _ _ hE
    · rw [hcfgE.1]
      exact hid
    · have := hcfgE.2.2.2.2.2.1
      omega
    · have hM := hcfgE.2.2.2.1
      intro q hq
      rw [hM]
      exact hsam q hq
  · have hE : EncEquiv 0 (Encoder.cancel_encode s) (freshLike s) := by
      refine ⟨?_, ?_, ?_, ?_, ?_, ?_, ?_, ?_, ?_⟩
      · exact SameConfig.trans
          (⟨rfl, rfl, rfl, rfl, rfl, rfl, rfl, rfl⟩ :
            SameConfig (Encoder.cancel_encode s) s) hfreshCfg
      · rfl
      · rfl
      · rfl
      · intro p hp
        exact absurd hp (by
          have hc : (Encoder.cancel_encode s).len = 0 := rfl
          omega)
      · rfl
      · intro kk hkk
        exact absurd hkk (by omega)
      · intro hs8 i hi jj hjj
        exact absurd hjj (by omega)
      · intro hs8 jj hjj
        exact absurd hjj (by omega)
    apply encodeRun_congr gz samples 0 _ _ hE
    · exact hid
    · exact hL
    · exact hsam

theorem c9_reset_behaves_like_fresh_witness :
    WfEncoder c9state ∧ c9state.id.length = 16 ∧
    WfSamples c9state.i32_count c9samples ∧
    ((encodeRun gzNone (Encoder.end_encode gzNone c9state).1 c9samples).2 =
        (encodeRun gzNone (freshLike c9state) c9samples).2 ∧
      (encodeRun gzNone (Encoder.cancel_encode c9state) c9samples).2 =
        (encodeRun gzNone (freshLike c9state) c9samples).2) := by
  have hwf : WfEncoder c9state := by
    unfold WfEncoder
    decide
  have hid : c9state.id.length = 16 := by decide
  have hsam : WfSamples c9state.i32_count c9samples := by
    unfold WfSamples
    decide
  exact ⟨hwf, hid, hsam,
    c9_reset_behaves_like_fresh gzNone c9state c9samples hwf hid hsam⟩

end Jetstream
